import Mathlib

/-!
# Verification of the zed-koda-agent protocol middleware

Shallow embedding of the permission classifier/gate, the interactive
approval flow, the plan collector, the tool-call interceptor, the
JSON-RPC bridge, the session-level mode/teardown operations, and the
professional-mode execution-plan state machine of the zed-koda-agent
repository, together with theorems settling the specification claims.

JavaScript `Map`s are modelled as association lists (insertion order
preserved, as in JS), JS `Set`s as duplicate-free lists, JS values
reachable by `JSON.stringify` as an inductive `JsValue`, and the
regular expressions of the dangerous-command list as executable
matchers over character lists (word characters are `[A-Za-z0-9_]`,
whitespace is the ASCII whitespace class).
-/

namespace KodaAgentSpec

/-! ## JS string / regex primitives -/

/-- JS `\w`: ASCII letters, digits and underscore. -/
def isWordChar (c : Char) : Bool :=
  c.isAlpha || c.isDigit || c = '_'

/-- JS `\s` restricted to its ASCII members (space, tab, LF, VT, FF, CR). -/
def isJsSpace (c : Char) : Bool :=
  c = ' ' || c = '\t' || c = '\n' || c = '\x0b' || c = '\x0c' || c = '\r'

/-- Is the optional character a word character (`none` = outside the string). -/
def isWordOpt : Option Char → Bool
  | some c => isWordChar c
  | none => false

/-- Character just before position `i`, if any. -/
def prevCharAt (cs : List Char) (i : Nat) : Option Char :=
  if i = 0 then none else cs[i - 1]?

/-- JS regex word boundary `\b` at position `i` of `cs`. -/
def wordBoundaryAt (cs : List Char) (i : Nat) : Bool :=
  isWordOpt (prevCharAt cs i) != isWordOpt cs[i]?

/-- Does `w` occur verbatim at position `i` of `cs`? -/
def substrAt (cs : List Char) (i : Nat) (w : List Char) : Bool :=
  (cs.drop i).take w.length == w

/-- Length of the longest prefix of `cs` satisfying `p`. -/
def countLeading (p : Char → Bool) : List Char → Nat
  | [] => 0
  | c :: cs => if p c then countLeading p cs + 1 else 0

/-- Case-insensitivity helper: JS `String.prototype.toLowerCase` on ASCII. -/
def toLowerStr (s : String) : String :=
  ⟨s.data.map Char.toLower⟩

/-- JS `String.prototype.includes`: `sub` occurs somewhere in `s`. -/
def strIncludes (s sub : String) : Bool :=
  (List.range (s.toList.length + 1)).any fun i => substrAt s.toList i sub.toList

/-! ## The dangerous-command regular expressions

Each matcher embeds one entry of the `dangerousPatterns` array in
`PermissionHandler.getToolType` (src/src/agent/koda-agent.js).  The
`\s+`/`\s*` quantifiers are always followed by a non-whitespace
character in these patterns, so matching the maximal whitespace run is
equivalent to the backtracking semantics. -/

/-- Embeds `/\bWORD\b/` for a word `w` made of word characters. -/
def matchesWordPat (w : String) (s : String) : Bool :=
  let cs := s.toList
  let ws := w.toList
  (List.range (cs.length + 1)).any fun i =>
    wordBoundaryAt cs i && substrAt cs i ws && wordBoundaryAt cs (i + ws.length)

/-- Embeds `/\brm\s+-rf?\b/`. -/
def matchesRmRf (s : String) : Bool :=
  let cs := s.toList
  (List.range (cs.length + 1)).any fun i =>
    wordBoundaryAt cs i && substrAt cs i ['r', 'm'] &&
      (let n := countLeading isJsSpace (cs.drop (i + 2))
       decide (1 ≤ n) &&
         (let k := i + 2 + n
          substrAt cs k ['-', 'r'] &&
            ((substrAt cs (k + 2) ['f'] && wordBoundaryAt cs (k + 3)) ||
              wordBoundaryAt cs (k + 2))))

/-- Embeds `/\b>\s*\/dev\//`. -/
def matchesDevRedirect (s : String) : Bool :=
  let cs := s.toList
  (List.range (cs.length + 1)).any fun i =>
    wordBoundaryAt cs i && substrAt cs i ['>'] &&
      (let n := countLeading isJsSpace (cs.drop (i + 1))
       substrAt cs (i + 1 + n) ['/', 'd', 'e', 'v', '/'])

/-- The fixed ordered `dangerousPatterns` list: `rm -rf`, `sudo`, `chmod`,
`chown`, `mkfs`, `dd`, `> /dev/`, `format`, `fdisk`.  A JS `for` loop over
the array returning on the first match is an or-chain in that order. -/
def matchesDangerousPattern (input : String) : Bool :=
  matchesRmRf input || matchesWordPat "sudo" input || matchesWordPat "chmod" input ||
  matchesWordPat "chown" input || matchesWordPat "mkfs" input || matchesWordPat "dd" input ||
  matchesDevRedirect input || matchesWordPat "format" input || matchesWordPat "fdisk" input

/-! ## JSON values and `JSON.stringify` -/

/-- JS values reachable by `JSON.stringify` (enough for tool-call inputs). -/
inductive JsValue where
  | null
  | bool (b : Bool)
  | num (n : Int)
  | str (s : String)
  | arr (xs : List JsValue)
  | obj (fields : List (String × JsValue))

/-- JS truthiness of a `JsValue` (for `x || fallback` defaulting). -/
def jsTruthy : JsValue → Bool
  | .null => false
  | .bool b => b
  | .num n => n != 0
  | .str s => s != ""
  | .arr _ => true
  | .obj _ => true

/-- Embeds `JSON.stringify` escaping for one character of a string literal. -/
def jsonEscapeChar (c : Char) : String :=
  if c = '"' then "\\\""
  else if c = '\\' then "\\\\"
  else if c = '\n' then "\\n"
  else if c = '\r' then "\\r"
  else if c = '\t' then "\\t"
  else String.singleton c

/-- Embeds `JSON.stringify` escaping of a string body. -/
def jsonEscape (s : String) : String :=
  String.join (s.toList.map jsonEscapeChar)

mutual

/-- Embeds `JSON.stringify` (no spacing argument, as called in the source). -/
def JsValue.stringify : JsValue → String
  | .null => "null"
  | .bool true => "true"
  | .bool false => "false"
  | .num n => toString n
  | .str s => "\"" ++ jsonEscape s ++ "\""
  | .arr xs => "[" ++ stringifyArr xs ++ "]"
  | .obj fs => "\x7b" ++ stringifyFields fs ++ "\x7d"

/-- Comma-separated serialization of array elements. -/
def stringifyArr : List JsValue → String
  | [] => ""
  | [x] => x.stringify
  | x :: y :: xs => x.stringify ++ "," ++ stringifyArr (y :: xs)

/-- Comma-separated serialization of object fields. -/
def stringifyFields : List (String × JsValue) → String
  | [] => ""
  | [(k, v)] => "\"" ++ jsonEscape k ++ "\":" ++ v.stringify
  | (k, v) :: f :: fs =>
      "\"" ++ jsonEscape k ++ "\":" ++ v.stringify ++ "," ++ stringifyFields (f :: fs)

end

/-! ## JS `Map` operations

Association lists with the key semantics of a JS `Map` (iteration in
insertion order, at most one binding per key in any state a `Map` can
reach); `set` replaces the existing binding or appends, `delete` removes
the binding. -/

/-- JS `Map.get`. -/
def mapGet {K A : Type} [BEq K] : List (K × A) → K → Option A
  | [], _ => none
  | p :: ps, k => if p.1 == k then some p.2 else mapGet ps k

/-- JS `Map.set`. -/
def mapSet {K A : Type} [BEq K] : List (K × A) → K → A → List (K × A)
  | [], k, v => [(k, v)]
  | p :: ps, k, v => if p.1 == k then (p.1, v) :: ps else p :: mapSet ps k v

/-- JS `Map.delete`. -/
def mapDelete {K A : Type} [BEq K] : List (K × A) → K → List (K × A)
  | [], _ => []
  | p :: ps, k => if p.1 == k then ps else p :: mapDelete ps k

/-- JS `Map.has`. -/
def mapHas {K A : Type} [BEq K] (m : List (K × A)) (k : K) : Bool :=
  (mapGet m k).isSome

/-! ## Tool calls and the permission classifier -/

/-- Risk kinds (the `TOOL_TYPE` string constants of the source). -/
inductive ToolType where
  | read
  | file_edit
  | file_delete
  | command_execute
  | dangerous_command
  | other
deriving DecidableEq

/-- A tool-call notification payload, with the fields the policy code reads.
Absent JSON fields are `none`. -/
structure ToolCall where
  toolCallId : String
  kind : Option String := none
  title : Option String := none
  rawInput : Option JsValue := none
  status : Option String := none
  locations : List String := []

/-- JS `x || fallback` on an optional string field (`undefined` and `""` are falsy). -/
def jsStrOr (x : Option String) (fallback : String) : String :=
  match x with
  | some s => if s = "" then fallback else s
  | none => fallback

/-- JS `toolCall.rawInput || {}` (falsy raw inputs default to the empty object). -/
def rawInputOrEmpty (tc : ToolCall) : JsValue :=
  match tc.rawInput with
  | some v => if jsTruthy v then v else .obj []
  | none => .obj []

/-- Embeds `PermissionHandler.getToolType` (src/src/agent/koda-agent.js):
classify by declared kind first; `execute` kinds test the serialized raw
input against the dangerous patterns; unrecognized kinds fall back to
case-insensitive title matching. -/
def getToolType (tc : ToolCall) : ToolType :=
  let kind := jsStrOr tc.kind "other"
  let title := toLowerStr (jsStrOr tc.title "")
  if kind = "read" || kind = "search" then .read
  else if kind = "edit" then .file_edit
  else if kind = "delete" then .file_delete
  else if kind = "execute" then
    if matchesDangerousPattern (rawInputOrEmpty tc).stringify then .dangerous_command
    else .command_execute
  else if strIncludes title "read" || strIncludes title "glob" || strIncludes title "grep" then
    .read
  else if strIncludes title "write" || strIncludes title "edit" || strIncludes title "create" then
    .file_edit
  else if strIncludes title "delete" || strIncludes title "remove" then .file_delete
  else if strIncludes title "bash" || strIncludes title "command" || strIncludes title "run" then
    .command_execute
  else .other

/-! ## The permission gate -/

/-- Embeds `PermissionHandler` state: `alwaysAllowedTypes` is a `Map` from session id
to a `Set` of risk kinds, modelled as an association list of duplicate-free
lists. -/
structure PermissionHandler where
  alwaysAllowedTypes : List (String × List ToolType) := []

/-- Lookup of a session's always-allow set (JS `Map.get`). -/
def PermissionHandler.allowedSet (h : PermissionHandler) (sessionId : String) :
    Option (List ToolType) :=
  mapGet h.alwaysAllowedTypes sessionId

/-- The `alwaysAllowed?.has(toolType)` test of `needsPermission`. -/
def PermissionHandler.isAlwaysAllowed (h : PermissionHandler) (sessionId : String)
    (t : ToolType) : Bool :=
  match h.allowedSet sessionId with
  | some s => s.contains t
  | none => false

/-- Embeds `PermissionHandler.needsPermission` (src/src/agent/koda-agent.js),
decision chain in source order. -/
def needsPermission (h : PermissionHandler) (sessionId mode : String) (tc : ToolCall) : Bool :=
  let toolType := getToolType tc
  if toolType = .read then false
  else if mode = "bypass" then false
  else if h.isAlwaysAllowed sessionId toolType then false
  else if mode = "plan" then true
  else if mode = "yolo" then toolType == .dangerous_command
  else if mode = "auto_edit" then toolType != .file_edit
  else true

/-- Modelled from the spec: the gate decision table as the specification
words it ("Gate correctness table", spec §4.4/§8.3) — read kinds never
require approval, then `bypass`, then the always-allow override, then the
per-mode table for `plan`, `yolo`, `auto_edit` and the `default`/unknown
fallback.  Used only to compare against `needsPermission` from the source. -/
def gateSpecTable (allowed : Bool) (mode : String) (t : ToolType) : Bool :=
  if t = .read then false
  else if mode = "bypass" then false
  else if allowed then false
  else if mode = "plan" then true
  else if mode = "yolo" then decide (t = .dangerous_command)
  else if mode = "auto_edit" then decide (t ≠ .file_edit)
  else true

/-! ## Interactive approval flow -/

/-- An approval outcome object, `{outcome, optionId}`.  The synthetic
outcomes of the source are `{outcome: "blocked", optionId: "plan_blocked"}`
and `{outcome: "cancelled", optionId: null}`; a client response carries its
own `outcome`/`optionId` pair. -/
structure PermOutcome where
  outcome : String
  optionId : Option String
deriving DecidableEq

/-- The environment of one `connection.requestPermission` await: either the
client's response outcome, or a thrown transport error with its message. -/
def PermEnv := Except String PermOutcome

/-- JS `Set.add` (no duplicates, insertion order kept). -/
def setAdd (l : List ToolType) (t : ToolType) : List ToolType :=
  if l.contains t then l else l ++ [t]

/-- The `alwaysAllowedTypes` mutation of an allow-always outcome:
`if (!map.has(sid)) map.set(sid, new Set()); map.get(sid).add(t)`. -/
def PermissionHandler.addAllowed (h : PermissionHandler) (sessionId : String)
    (t : ToolType) : PermissionHandler :=
  ⟨mapSet h.alwaysAllowedTypes sessionId
    (setAdd ((mapGet h.alwaysAllowedTypes sessionId).getD []) t)⟩

/-- Embeds `PermissionHandler.requestPermission` (src/src/agent/koda-agent.js):
plan mode short-circuits to a synthetic blocked outcome; otherwise the
client is asked (its answer or transport failure is `env`); an
`allow_always` answer grows the session's always-allow set before the
outcome is returned; a thrown transport error is downgraded to a
`cancelled` outcome. -/
def requestPermission (h : PermissionHandler) (sessionId : String) (tc : ToolCall)
    (mode : String) (env : PermEnv) : PermOutcome × PermissionHandler :=
  let toolType := getToolType tc
  if mode = "plan" then ({ outcome := "blocked", optionId := some "plan_blocked" }, h)
  else
    match env with
    | .ok respOutcome =>
        let h' := if respOutcome.optionId = some "allow_always"
          then h.addAllowed sessionId toolType else h
        (respOutcome, h')
    | .error _ => ({ outcome := "cancelled", optionId := none }, h)

/-! ## Plan collector -/

/-- One plan entry, as built by `PlanCollector.addEntry`
(src/src/session/plan-collector.js). -/
structure PlanEntry where
  content : String
  status : String
  priority : String
  toolCallId : String
  kind : Option String
  rawInput : Option JsValue

/-- Embeds `PlanCollector` state: `plans` maps session id to its ordered entry list. -/
structure PlanCollector where
  plans : List (String × List PlanEntry) := []

/-- The entry object `addEntry` constructs from a tool call. -/
def mkPlanEntry (tc : ToolCall) : PlanEntry :=
  { content := jsStrOr tc.title "Unknown action"
    status := "pending"
    priority := if tc.kind = some "execute" then "high" else "medium"
    toolCallId := tc.toolCallId
    kind := tc.kind
    rawInput := tc.rawInput }

/-- Embeds `PlanCollector.addEntry`: append the new entry to the session's list,
creating the list if absent; returns the entry. -/
def PlanCollector.addEntry (pc : PlanCollector) (sessionId : String) (tc : ToolCall) :
    PlanCollector × PlanEntry :=
  let plan := (mapGet pc.plans sessionId).getD []
  let entry := mkPlanEntry tc
  (⟨mapSet pc.plans sessionId (plan ++ [entry])⟩, entry)

/-- Embeds `PlanCollector.getPlan`: the session's list, or `[]` if none. -/
def PlanCollector.getPlan (pc : PlanCollector) (sessionId : String) : List PlanEntry :=
  (mapGet pc.plans sessionId).getD []

/-- In-place status mutation of the first entry matching a tool-call id
(`plan.find(...)` then `entry.status = status`). -/
def updateFirstEntry : List PlanEntry → String → String → List PlanEntry
  | [], _, _ => []
  | e :: es, toolCallId, status =>
      if e.toolCallId == toolCallId then { e with status := status } :: es
      else e :: updateFirstEntry es toolCallId status

/-- Embeds `PlanCollector.updateEntryByToolCallId`: no-op when the session has no
plan or no entry matches. -/
def PlanCollector.updateEntryByToolCallId (pc : PlanCollector) (sessionId toolCallId status : String) :
    PlanCollector :=
  match mapGet pc.plans sessionId with
  | some plan => ⟨mapSet pc.plans sessionId (updateFirstEntry plan toolCallId status)⟩
  | none => pc

/-- Embeds `PlanCollector.clearPlan` (and `deleteSession`, which is identical):
remove the whole list for the session. -/
def PlanCollector.clearPlan (pc : PlanCollector) (sessionId : String) : PlanCollector :=
  ⟨mapDelete pc.plans sessionId⟩

/-! ## Mode manager -/

/-- The fixed `MODES` catalog (ids only; names are display data). -/
def MODES : List String := ["default", "auto_edit", "plan", "yolo", "bypass"]

/-- Embeds `ModeManager` state: `sessionModes` maps session id to mode id. -/
structure ModeManager where
  sessionModes : List (String × String) := []

/-- Embeds `ModeManager.getMode`: the stored mode, `"default"` when unset. -/
def ModeManager.getMode (m : ModeManager) (sessionId : String) : String :=
  jsStrOr (mapGet m.sessionModes sessionId) "default"

/-- Embeds `ModeManager.setMode`: throws `Unknown mode` when the id is not in the
catalog, otherwise records it. -/
def ModeManager.setMode (m : ModeManager) (sessionId modeId : String) :
    Except String ModeManager :=
  if (MODES.find? (fun id => id == modeId)).isSome then
    .ok ⟨mapSet m.sessionModes sessionId modeId⟩
  else
    .error ("Unknown mode: " ++ modeId)

/-- Embeds `ModeManager.deleteSession`. -/
def ModeManager.deleteSession (m : ModeManager) (sessionId : String) : ModeManager :=
  ⟨mapDelete m.sessionModes sessionId⟩

/-! ## Tool-call interceptor -/

/-- Embeds `ToolCallInterceptor` tracking state: both JS `Map`s keyed by
tool-call id. -/
structure ToolCallInterceptor where
  blockedToolCalls : List (String × ToolCall) := []
  pendingToolCalls : List (String × ToolCall) := []

/-- A `tool_call_update` notification payload (fields the interceptor reads). -/
structure ToolCallUpdateMsg where
  toolCallId : String
  status : String

/-- An inbound `session/update` payload from the subordinate process,
dispatched on its `sessionUpdate` tag. -/
inductive IncomingUpdate where
  | toolCall (tc : ToolCall)
  | toolCallUpdate (u : ToolCallUpdateMsg)
  | otherUpdate (tag : String)

/-- The structured `rawOutput` payloads the interceptor synthesizes. -/
inductive RawOut where
  | blockedOut (reason : String)
  | rejectedOut (reason : String)
deriving DecidableEq

/-- An outbound `session/update` payload sent to the upstream client:
a tool-call copy with a forced status, a plan snapshot, or a synthesized
`tool_call_update`. -/
inductive OutUpdate where
  | toolCallForced (tc : ToolCall) (status : String)
  | planSnapshot (entries : List PlanEntry)
  | toolCallUpdateForced (toolCallId : String) (status : String) (rawOutput : RawOut)
  | currentModeUpdate (modeId : String)

/-- One outbound message to the upstream client: a `session/update`
notification or a `session/request_permission` request. -/
inductive OutMsg where
  | sessionUpdate (sessionId : String) (update : OutUpdate)
  | permissionRequest (sessionId : String) (tc : ToolCall)

/-- The object an interceptor handler returns,
`{forward, update?, blocked?, rejected?, alreadySent?}`. -/
structure InterceptResult where
  forward : Bool
  update : Option IncomingUpdate := none
  blocked : Bool := false
  rejected : Bool := false
  alreadySent : Bool := false

/-- The component states the interceptor reads and mutates. -/
structure AgentComponents where
  permissionHandler : PermissionHandler := {}
  modeManager : ModeManager := {}
  planCollector : PlanCollector := {}
  interceptor : ToolCallInterceptor := {}

/-- Embeds `ToolCallInterceptor.handlePlanMode` (src/unnamed/part_002): add a plan
entry, mark the id blocked, send the pending copy, the plan snapshot, and
the forced-failed blocked update; suppress the original. -/
def handlePlanMode (ac : AgentComponents) (sessionId : String) (tc : ToolCall) :
    InterceptResult × AgentComponents × List OutMsg :=
  let (pc', _) := ac.planCollector.addEntry sessionId tc
  let it' := { ac.interceptor with
    blockedToolCalls := mapSet ac.interceptor.blockedToolCalls tc.toolCallId tc }
  let msgs : List OutMsg :=
    [ .sessionUpdate sessionId (.toolCallForced tc "pending"),
      .sessionUpdate sessionId (.planSnapshot (pc'.getPlan sessionId)),
      .sessionUpdate sessionId (.toolCallUpdateForced tc.toolCallId "failed"
        (.blockedOut "Plan mode - execution blocked")) ]
  ({ forward := false, blocked := true },
   { ac with planCollector := pc', interceptor := it' }, msgs)

/-- Embeds `ToolCallInterceptor.handleToolCall` (src/unnamed/part_002): gate, then
auto-forward, plan-block, or run the interactive approval flow under the
approval environment `env`. -/
def handleToolCall (ac : AgentComponents) (sessionId mode : String) (tc : ToolCall)
    (env : PermEnv) : InterceptResult × AgentComponents × List OutMsg :=
  if !(needsPermission ac.permissionHandler sessionId mode tc) then
    ({ forward := true, update := some (.toolCall tc) },
     { ac with interceptor := { ac.interceptor with
         pendingToolCalls := mapSet ac.interceptor.pendingToolCalls tc.toolCallId tc } },
     [])
  else if mode = "plan" then
    handlePlanMode ac sessionId tc
  else
    let pendingMsg : OutMsg := .sessionUpdate sessionId (.toolCallForced tc "pending")
    let askMsg : OutMsg := .permissionRequest sessionId tc
    let (outcome, ph') := requestPermission ac.permissionHandler sessionId tc mode env
    if outcome.outcome = "cancelled" || outcome.optionId = some "reject" then
      ({ forward := false, blocked := true, rejected := true },
       { ac with permissionHandler := ph', interceptor := { ac.interceptor with
           blockedToolCalls := mapSet ac.interceptor.blockedToolCalls tc.toolCallId tc } },
       [pendingMsg, askMsg,
        .sessionUpdate sessionId (.toolCallUpdateForced tc.toolCallId "failed"
          (.rejectedOut "User rejected the operation"))])
    else
      ({ forward := false, alreadySent := true },
       { ac with permissionHandler := ph', interceptor := { ac.interceptor with
           pendingToolCalls := mapSet ac.interceptor.pendingToolCalls tc.toolCallId tc } },
       [pendingMsg, askMsg])

/-- Embeds `ToolCallInterceptor.handleToolCallUpdate` (src/unnamed/part_002):
suppress updates for blocked ids; otherwise propagate terminal statuses to
the plan entry and relay unchanged. -/
def handleToolCallUpdate (ac : AgentComponents) (sessionId : String)
    (u : ToolCallUpdateMsg) : InterceptResult × AgentComponents :=
  if (mapGet ac.interceptor.blockedToolCalls u.toolCallId).isSome then
    ({ forward := false }, ac)
  else
    let pc' := if u.status = "completed" || u.status = "failed" then
      ac.planCollector.updateEntryByToolCallId sessionId u.toolCallId u.status
    else ac.planCollector
    ({ forward := true, update := some (.toolCallUpdate u) },
     { ac with planCollector := pc' })

/-- Embeds `ToolCallInterceptor.processSessionUpdate` (src/unnamed/part_002). -/
def processSessionUpdate (ac : AgentComponents) (sessionId : String)
    (update : IncomingUpdate) (env : PermEnv) :
    InterceptResult × AgentComponents × List OutMsg :=
  let mode := ac.modeManager.getMode sessionId
  match update with
  | .toolCall tc => handleToolCall ac sessionId mode tc env
  | .toolCallUpdate u =>
      let (r, ac') := handleToolCallUpdate ac sessionId u
      (r, ac', [])
  | .otherUpdate _ => ({ forward := true, update := some update }, ac, [])

/-- Embeds `ToolCallInterceptor.clearSession`: both maps are cleared wholesale
(the `sessionId` parameter of the source is unused). -/
def ToolCallInterceptor.clearSession (_it : ToolCallInterceptor) (_sessionId : String) :
    ToolCallInterceptor :=
  { blockedToolCalls := [], pendingToolCalls := [] }

/-! ## Professional-mode execution plan (src/src/session/professional-handler.js)

`Date.now()` / `new Date()` are modelled by an explicit `now : Nat`
argument; step/plan statuses are the `STEP_STATUS` / `PLAN_STATUS` string
constants as inductives.  Negative JS array indices are not modelled (the
operations below receive `Nat` indices). -/

/-- Embeds `STEP_STATUS`. -/
inductive StepStatus where
  | pending
  | awaiting_approval
  | in_progress
  | completed
  | skipped
  | failed
deriving DecidableEq

/-- Embeds `PLAN_STATUS`. -/
inductive PlanStatus where
  | none
  | planning
  | pending_approval
  | executing
  | paused
  | completed
  | cancelled
deriving DecidableEq

/-- One plan step. -/
structure PlanStep where
  id : String
  title : String
  description : String
  status : StepStatus
  result : Option String
deriving DecidableEq

/-- An execution plan. -/
structure ExecutionPlan where
  id : String
  taskDescription : String
  steps : List PlanStep
  status : PlanStatus
  currentStepIndex : Nat
  createdAt : Nat
  completedAt : Option Nat
deriving DecidableEq

/-- Embeds `ProfessionalModeHandler` state. -/
structure ProfessionalModeHandler where
  currentPlan : Option ExecutionPlan := Option.none
  autoApproveSteps : Bool := false
deriving DecidableEq

/-- Replace the element at index `i` by `f` of it (in-bounds only),
modelling JS in-place mutation of `steps[i]`. -/
def modifyAt (l : List PlanStep) (i : Nat) (f : PlanStep → PlanStep) : List PlanStep :=
  match l[i]? with
  | some s => l.set i (f s)
  | Option.none => l

/-- JS `Array.prototype.splice(pos, 0, x)` insertion (position clamped to
the array length). -/
def spliceInsert (l : List PlanStep) (pos : Nat) (x : PlanStep) : List PlanStep :=
  l.take pos ++ [x] ++ l.drop pos

/-- Embeds `getCurrentStep`: `steps[currentStepIndex] || null`. -/
def ProfessionalModeHandler.getCurrentStep (h : ProfessionalModeHandler) : Option PlanStep :=
  match h.currentPlan with
  | some p => p.steps[p.currentStepIndex]?
  | Option.none => Option.none

/-- Embeds `createPlan`: fresh plan in `pending_approval` with all steps `pending`
and `currentStepIndex = 0`. -/
def ProfessionalModeHandler.createPlan (h : ProfessionalModeHandler) (now : Nat)
    (taskDescription : String) (steps : List (String × String)) :
    ProfessionalModeHandler × ExecutionPlan :=
  let planId := "plan_" ++ toString now
  let plan : ExecutionPlan :=
    { id := planId
      taskDescription := taskDescription
      steps := (steps.enum).map fun si =>
        { id := planId ++ "_step_" ++ toString si.1
          title := si.2.1
          description := si.2.2
          status := .pending
          result := Option.none }
      status := .pending_approval
      currentStepIndex := 0
      createdAt := now
      completedAt := Option.none }
  ({ h with currentPlan := some plan }, plan)

/-- Embeds `approvePlan`: only from `pending_approval`; pauses the plan and marks
step 0 (if any) awaiting approval. -/
def ProfessionalModeHandler.approvePlan (h : ProfessionalModeHandler) :
    ProfessionalModeHandler × Bool :=
  match h.currentPlan with
  | some p =>
      if p.status = .pending_approval then
        ({ h with currentPlan := some { p with
            status := .paused
            steps := if p.steps.length > 0 then
              modifyAt p.steps 0 (fun s => { s with status := .awaiting_approval })
            else p.steps } }, true)
      else (h, false)
  | Option.none => (h, false)

/-- Embeds `rejectPlan`: cancels whatever plan exists. -/
def ProfessionalModeHandler.rejectPlan (h : ProfessionalModeHandler) :
    ProfessionalModeHandler × Bool :=
  match h.currentPlan with
  | some p => ({ h with currentPlan := some { p with status := .cancelled } }, true)
  | Option.none => (h, false)

/-- Embeds `moveToNextStep`: advance `currentStepIndex`; at the end the plan
becomes `completed`, otherwise the next step awaits approval and the plan
pauses.  Returns `true` when a next step exists. -/
def ProfessionalModeHandler.moveToNextStep (h : ProfessionalModeHandler) (now : Nat) :
    ProfessionalModeHandler × Bool :=
  match h.currentPlan with
  | some p =>
      let nextIndex := p.currentStepIndex + 1
      if nextIndex ≥ p.steps.length then
        ({ h with currentPlan := some { p with
            status := .completed, completedAt := some now } }, false)
      else
        ({ h with currentPlan := some { p with
            currentStepIndex := nextIndex
            steps := modifyAt p.steps nextIndex (fun s => { s with status := .awaiting_approval })
            status := .paused } }, true)
  | Option.none => (h, false)

/-- Embeds `approveCurrentStep`: only an `awaiting_approval` current step starts
executing; returns the started step. -/
def ProfessionalModeHandler.approveCurrentStep (h : ProfessionalModeHandler) :
    ProfessionalModeHandler × Option PlanStep :=
  match h.currentPlan, h.getCurrentStep with
  | some p, some step =>
      if step.status = .awaiting_approval then
        ({ h with currentPlan := some { p with
            steps := modifyAt p.steps p.currentStepIndex (fun s => { s with status := .in_progress })
            status := .executing } },
         some { step with status := .in_progress })
      else (h, Option.none)
  | _, _ => (h, Option.none)

/-- Embeds `skipCurrentStep`: mark the current step skipped and advance. -/
def ProfessionalModeHandler.skipCurrentStep (h : ProfessionalModeHandler) (now : Nat) :
    ProfessionalModeHandler × Bool :=
  match h.currentPlan, h.getCurrentStep with
  | some p, some _ =>
      let h' := { h with currentPlan := some { p with
        steps := modifyAt p.steps p.currentStepIndex (fun s => { s with status := .skipped }) } }
      h'.moveToNextStep now
  | _, _ => (h, false)

/-- Embeds `completeCurrentStep`: only an `in_progress` current step completes
(recording its result), then advance. -/
def ProfessionalModeHandler.completeCurrentStep (h : ProfessionalModeHandler) (now : Nat)
    (result : String) : ProfessionalModeHandler × Bool :=
  match h.currentPlan, h.getCurrentStep with
  | some p, some step =>
      if step.status = .in_progress then
        let h' := { h with currentPlan := some { p with
          steps := modifyAt p.steps p.currentStepIndex
            (fun s => { s with status := .completed, result := some result }) } }
        h'.moveToNextStep now
      else (h, false)
  | _, _ => (h, false)

/-- Embeds `failCurrentStep`: mark the current step failed (recording the error)
and pause the plan; the index does not move. -/
def ProfessionalModeHandler.failCurrentStep (h : ProfessionalModeHandler) (err : String) :
    ProfessionalModeHandler × Bool :=
  match h.currentPlan, h.getCurrentStep with
  | some p, some _ =>
      ({ h with currentPlan := some { p with
          steps := modifyAt p.steps p.currentStepIndex
            (fun s => { s with status := .failed, result := some err })
          status := .paused } }, true)
  | _, _ => (h, false)

/-- Embeds `modifyStep`: only `pending` / `awaiting_approval` steps may change
title/description (truthy updates only). -/
def ProfessionalModeHandler.modifyStep (h : ProfessionalModeHandler) (stepIndex : Nat)
    (titleUpd descriptionUpd : Option String) : ProfessionalModeHandler × Bool :=
  match h.currentPlan with
  | some p =>
      if stepIndex ≥ p.steps.length then (h, false)
      else
        match p.steps[stepIndex]? with
        | some step =>
            if step.status ≠ .pending ∧ step.status ≠ .awaiting_approval then (h, false)
            else
              ({ h with currentPlan := some { p with
                  steps := modifyAt p.steps stepIndex (fun s =>
                    { s with
                      title := match titleUpd with
                        | some t => if t = "" then s.title else t
                        | Option.none => s.title
                      description := match descriptionUpd with
                        | some d => if d = "" then s.description else d
                        | Option.none => s.description }) } }, true)
        | Option.none => (h, false)
  | Option.none => (h, false)

/-- Embeds `addStep`: splice a fresh `pending` step in after `afterIndex`; the
current step index is NOT adjusted. -/
def ProfessionalModeHandler.addStep (h : ProfessionalModeHandler) (now : Nat)
    (afterIndex : Nat) (title description : String) : ProfessionalModeHandler × Bool :=
  match h.currentPlan with
  | some p =>
      let newStep : PlanStep :=
        { id := p.id ++ "_step_" ++ toString now
          title := title
          description := description
          status := .pending
          result := Option.none }
      ({ h with currentPlan := some { p with
          steps := spliceInsert p.steps (afterIndex + 1) newStep } }, true)
  | Option.none => (h, false)

/-- Embeds `removeStep`: only a `pending` step may be removed; the current index
is decremented when an earlier step is removed. -/
def ProfessionalModeHandler.removeStep (h : ProfessionalModeHandler) (stepIndex : Nat) :
    ProfessionalModeHandler × Bool :=
  match h.currentPlan with
  | some p =>
      if stepIndex ≥ p.steps.length then (h, false)
      else
        match p.steps[stepIndex]? with
        | some step =>
            if step.status ≠ .pending then (h, false)
            else
              ({ h with currentPlan := some { p with
                  steps := p.steps.eraseIdx stepIndex
                  currentStepIndex := if stepIndex < p.currentStepIndex then
                    p.currentStepIndex - 1 else p.currentStepIndex } }, true)
        | Option.none => (h, false)
  | Option.none => (h, false)

/-- Embeds `reset`. -/
def ProfessionalModeHandler.reset (_h : ProfessionalModeHandler) : ProfessionalModeHandler :=
  { currentPlan := Option.none, autoApproveSteps := false }

/-! ## Session-level operations (src/src/agent/koda-agent.js) -/

/-- Embeds `PermissionHandler.deleteSession`. -/
def PermissionHandler.deleteSession (h : PermissionHandler) (sessionId : String) :
    PermissionHandler :=
  ⟨mapDelete h.alwaysAllowedTypes sessionId⟩

/-- Embeds `PlanCollector.deleteSession` (same body as `clearPlan`). -/
def PlanCollector.deleteSession (pc : PlanCollector) (sessionId : String) : PlanCollector :=
  ⟨mapDelete pc.plans sessionId⟩

/-- The `KodaAgent` state relevant to mode changes and teardown.  A session
is represented by its `restarting` flag (the only session attribute these
two operations read); `modelManager` by its sessionId→modelId map. -/
structure KodaAgent where
  sessions : List (String × Bool) := []
  modeManager : ModeManager := {}
  modelManager : List (String × String) := []
  permissionHandler : PermissionHandler := {}
  planCollector : PlanCollector := {}
  interceptor : ToolCallInterceptor := {}
  professionalHandler : ProfessionalModeHandler := {}

/-- Embeds `KodaAgent.setSessionMode`: unknown session and unknown mode throw;
otherwise the mode is recorded, the plan is cleared when the new mode is
not `plan`, and a `current_mode_update` is sent.  (No other component is
touched.) -/
def KodaAgent.setSessionMode (ag : KodaAgent) (sessionId modeId : String) :
    Except String (KodaAgent × List OutMsg) :=
  if (mapGet ag.sessions sessionId).isNone then
    .error ("Session " ++ sessionId ++ " not found")
  else
    match ag.modeManager.setMode sessionId modeId with
    | .error e => .error e
    | .ok mm' =>
        let pc' := if modeId ≠ "plan" then ag.planCollector.clearPlan sessionId
          else ag.planCollector
        .ok ({ ag with modeManager := mm', planCollector := pc' },
          [.sessionUpdate sessionId (.currentModeUpdate modeId)])

/-- Embeds `KodaAgent.handleKodaClose`: no-op for unknown or restarting sessions;
otherwise per-session state of the session map, mode manager, model
manager, permission handler and plan collector is deleted and the
professional handler reset.  (The interceptor is not touched.) -/
def KodaAgent.handleKodaClose (ag : KodaAgent) (sessionId : String) : KodaAgent :=
  match mapGet ag.sessions sessionId with
  | Option.none => ag
  | some restarting =>
      if restarting then ag
      else
        { sessions := mapDelete ag.sessions sessionId
          modeManager := ag.modeManager.deleteSession sessionId
          modelManager := mapDelete ag.modelManager sessionId
          permissionHandler := ag.permissionHandler.deleteSession sessionId
          planCollector := ag.planCollector.deleteSession sessionId
          interceptor := ag.interceptor
          professionalHandler := ag.professionalHandler.reset }

/-! ## JSON-RPC bridge (src/src/bridge/koda-bridge.js) -/

/-- A JSON-RPC error object (`{code, message}`); an absent or `null`
`error` field is modelled as `Option.none` on the frame. -/
structure ErrorObj where
  code : Option Int := Option.none
  message : Option String := Option.none
deriving DecidableEq

/-- A parsed JSON-RPC frame.  `Option.none` models an absent
(`undefined`) field. -/
structure Frame where
  id : Option Nat := Option.none
  method : Option String := Option.none
  params : Option JsValue := Option.none
  result : Option JsValue := Option.none
  error : Option ErrorObj := Option.none

/-- Embeds `KodaAcpBridge` correlation state.  A pending entry keeps the request's
method string as a stand-in for its resolve/reject continuation pair (what
identifies "the caller's promise" is the entry itself, keyed by id). -/
structure KodaAcpBridge where
  pendingRequests : List (Nat × String) := []
  requestIdCounter : Nat := 1

/-- Embeds `_write`: silently drops the frame when the subordinate's stdin is
absent or not writable; otherwise emits exactly the one frame. -/
def KodaAcpBridge.writeFrame (stdinWritable : Bool) (msg : Frame) : List Frame :=
  if stdinWritable then [msg] else []

/-- Embeds `sendRequest`: allocate `id = requestIdCounter++`, register the pending
entry, then attempt the write.  Returns the new state, the allocated id and
the frames actually written. -/
def KodaAcpBridge.sendRequest (b : KodaAcpBridge) (method : String) (params : Option JsValue)
    (stdinWritable : Bool) : KodaAcpBridge × Nat × List Frame :=
  let id := b.requestIdCounter
  ({ pendingRequests := mapSet b.pendingRequests id method
     requestIdCounter := b.requestIdCounter + 1 },
   id,
   KodaAcpBridge.writeFrame stdinWritable
     { id := some id, method := some method, params := params })

/-- What `handleMessage` did with one frame. -/
inductive HandleEvent where
  | resolved (id : Nat) (entry : String) (result : Option JsValue)
  | rejected (id : Nat) (entry : String) (message : String)
  | discarded
  | dispatched (msg : Frame)

/-- The rejection message: `message.error.message || "Unknown error"`. -/
def errMessageOf (e : ErrorObj) : String :=
  jsStrOr e.message "Unknown error"

/-- Embeds `handleMessage`: a frame with an `id` and a `result` or truthy `error`
is a response — resolve/reject and delete the matching pending entry, or
silently discard when nothing matches; anything else goes to `onMessage`. -/
def KodaAcpBridge.handleMessage (b : KodaAcpBridge) (msg : Frame) :
    KodaAcpBridge × HandleEvent :=
  match msg.id with
  | some i =>
      if msg.result.isSome || msg.error.isSome then
        match mapGet b.pendingRequests i with
        | some entry =>
            let b' := { b with pendingRequests := mapDelete b.pendingRequests i }
            match msg.error with
            | some e => (b', .rejected i entry (errMessageOf e))
            | Option.none => (b', .resolved i entry msg.result)
        | Option.none => (b, .discarded)
      else (b, .dispatched msg)
  | Option.none => (b, .dispatched msg)

/-- The freshly constructed bridge (`pendingRequests` empty,
`requestIdCounter = 1`). -/
def KodaAcpBridge.init : KodaAcpBridge := {}

/-! ## Association-list lemmas -/

theorem mapGet_mapSet_self {K A : Type} [BEq K] [LawfulBEq K] (m : List (K × A)) (k : K)
    (v : A) : mapGet (mapSet m k v) k = some v := by
  induction m with
  | nil => simp [mapGet, mapSet]
  | cons p ps ih =>
      by_cases h : p.1 == k
      · simp [mapSet, h, mapGet]
      · simp [mapSet, h, mapGet, ih]

theorem mapGet_mapSet_ne {K A : Type} [BEq K] [LawfulBEq K] (m : List (K × A)) (k k' : K)
    (v : A) (hne : k' ≠ k) : mapGet (mapSet m k v) k' = mapGet m k' := by
  induction m with
  | nil =>
      have : (k == k') = false := by
        simp [beq_eq_false_iff_ne]
        exact fun h => hne h.symm
      simp [mapGet, mapSet, this]
  | cons p ps ih =>
      by_cases h : p.1 == k
      · have hk : p.1 = k := by simpa using h
        have : (p.1 == k') = false := by
          simp [beq_eq_false_iff_ne, hk]
          exact fun h => hne h.symm
        simp [mapSet, h, mapGet, this]
      · by_cases h' : p.1 == k'
        · simp [mapSet, h, mapGet, h']
        · simp [mapSet, h, mapGet, h', ih]

theorem mapGet_mapDelete_ne {K A : Type} [BEq K] [LawfulBEq K] (m : List (K × A)) (k k' : K)
    (hne : k' ≠ k) : mapGet (mapDelete m k) k' = mapGet m k' := by
  induction m with
  | nil => simp [mapGet, mapDelete]
  | cons p ps ih =>
      by_cases h : p.1 == k
      · have hk : p.1 = k := by simpa using h
        have : (p.1 == k') = false := by
          simp [beq_eq_false_iff_ne, hk]
          exact fun h => hne h.symm
        simp [mapDelete, h, mapGet, this]
      · by_cases h' : p.1 == k'
        · simp [mapDelete, h, mapGet, h']
        · simp [mapDelete, h, mapGet, h', ih]

theorem mapGet_eq_none_of_forall {K A : Type} [BEq K] [LawfulBEq K] (m : List (K × A))
    (k : K) (h : ∀ p ∈ m, p.1 ≠ k) : mapGet m k = none := by
  induction m with
  | nil => simp [mapGet]
  | cons q qs ih =>
      have hq : (q.1 == k) = false := by
        simp only [beq_eq_false_iff_ne]
        exact h q (List.mem_cons_self q qs)
      simp only [mapGet, hq, Bool.false_eq_true, if_false]
      exact ih fun p hp => h p (List.mem_cons_of_mem q hp)

theorem mapGet_mapDelete_self {K A : Type} [BEq K] [LawfulBEq K] (m : List (K × A)) (k : K)
    (hnd : (m.map Prod.fst).Nodup) : mapGet (mapDelete m k) k = none := by
  induction m with
  | nil => simp [mapGet, mapDelete]
  | cons p ps ih =>
      simp only [List.map_cons, List.nodup_cons] at hnd
      by_cases h : p.1 == k
      · have hk : p.1 = k := by simpa using h
        simp only [mapDelete, h, if_true]
        apply mapGet_eq_none_of_forall
        intro q hq hqk
        exact hnd.1 (List.mem_map.mpr ⟨q, hq, by rw [hqk, ← hk]⟩)
      · simp only [mapDelete, h, Bool.false_eq_true, if_false, mapGet]
        exact ih hnd.2

theorem mem_mapDelete {K A : Type} [BEq K] (m : List (K × A)) (k : K) (p : K × A)
    (hp : p ∈ mapDelete m k) : p ∈ m := by
  induction m with
  | nil => simp [mapDelete] at hp
  | cons q qs ih =>
      by_cases h : q.1 == k
      · simp only [mapDelete, h, if_true] at hp
        exact List.mem_cons_of_mem q hp
      · simp only [mapDelete, h, Bool.false_eq_true, if_false] at hp
        rcases List.mem_cons.mp hp with h1 | h2
        · exact h1 ▸ List.mem_cons_self q qs
        · exact List.mem_cons_of_mem q (ih h2)

theorem keys_mapDelete_sublist {K A : Type} [BEq K] (m : List (K × A)) (k : K) :
    ((mapDelete m k).map Prod.fst).Sublist (m.map Prod.fst) := by
  induction m with
  | nil => simp [mapDelete]
  | cons q qs ih =>
      by_cases h : q.1 == k
      · simp only [mapDelete, h, if_true, List.map_cons]
        exact (List.sublist_cons_self q.1 (qs.map Prod.fst))
      · simp only [mapDelete, h, Bool.false_eq_true, if_false, List.map_cons]
        exact ih.cons₂ q.1

theorem mapSet_of_absent {K A : Type} [BEq K] (m : List (K × A)) (k : K) (v : A)
    (h : mapGet m k = none) : mapSet m k v = m ++ [(k, v)] := by
  induction m with
  | nil => simp [mapSet]
  | cons p ps ih =>
      by_cases hp : p.1 == k
      · simp [mapGet, hp] at h
      · simp only [mapGet, hp, Bool.false_eq_true, if_false] at h
        simp [mapSet, hp, ih h]

theorem mem_mapSet {K A : Type} [BEq K] [LawfulBEq K] (m : List (K × A)) (k : K) (v : A) (p : K × A)
    (hp : p ∈ mapSet m k v) : p = (k, v) ∨ p.1 = k ∨ p ∈ m := by
  induction m with
  | nil => simp only [mapSet, List.mem_singleton] at hp; exact Or.inl hp
  | cons q qs ih =>
      by_cases h : q.1 == k
      · simp only [mapSet, h, if_true] at hp
        rcases List.mem_cons.mp hp with h1 | h2
        · refine Or.inl ?_
          have hk : q.1 = k := by exact eq_of_beq h
          rw [h1, hk]
        · exact Or.inr (Or.inr (List.mem_cons_of_mem q h2))
      · simp only [mapSet, h, Bool.false_eq_true, if_false] at hp
        rcases List.mem_cons.mp hp with h1 | h2
        · exact Or.inr (Or.inr (h1 ▸ List.mem_cons_self q qs))
        · rcases ih h2 with h3 | h3 | h3
          · exact Or.inl h3
          · exact Or.inr (Or.inl h3)
          · exact Or.inr (Or.inr (List.mem_cons_of_mem q h3))

/-! ## Concrete example tool calls -/

/-- An execute-kind tool call running the given shell command. -/
def execCmd (cmd : String) : ToolCall :=
  { toolCallId := "tc-exec"
    kind := some "execute"
    rawInput := some (.obj [("command", .str cmd)]) }

/-! ## Claim C1 -/

/-- C1: For every session, mode, and tool call, `needsPermission` decides
by the claimed precedence: `read` risk kinds are `false`; else `bypass`
mode is `false`; else a risk kind in the session's always-allow set is
`false`; else `plan` mode is `true`; `yolo` mode is `true` exactly for
`dangerous_command`; `auto_edit` is `true` exactly for non-`file_edit`;
and `default` or any unrecognized mode is `true` for every remaining
kind — i.e. `needsPermission` equals the spec's gate table. -/
theorem C1_gate_decision_table (h : PermissionHandler) (sid mode : String) (tc : ToolCall) :
    needsPermission h sid mode tc =
      gateSpecTable (h.isAlwaysAllowed sid (getToolType tc)) mode (getToolType tc) := by
  simp only [needsPermission, gateSpecTable]
  split_ifs <;> first | rfl | (simp only [bne, decide_not]; rfl)

/-! ## Claim C4 -/

/-- C4: For every execute-kind tool call, classification yields
`dangerous_command` exactly when the JSON-serialized raw input matches one
of the fixed ordered dangerous patterns and `command_execute` otherwise;
in particular the listed dangerous inputs classify as `dangerous_command`
and `ls -la` / `echo hello` / `npm install` as `command_execute`. -/
theorem C4_dangerous_classification :
    (∀ tc : ToolCall, tc.kind = some "execute" →
      getToolType tc =
        (if matchesDangerousPattern (rawInputOrEmpty tc).stringify
          then ToolType.dangerous_command else ToolType.command_execute)) ∧
    getToolType (execCmd "rm -rf /tmp") = .dangerous_command ∧
    getToolType (execCmd "sudo apt install") = .dangerous_command ∧
    getToolType (execCmd "chmod 777 file") = .dangerous_command ∧
    getToolType (execCmd "chown root file") = .dangerous_command ∧
    getToolType (execCmd "mkfs /dev/sda") = .dangerous_command ∧
    getToolType (execCmd "dd if=/dev/zero of=/dev/sda") = .dangerous_command ∧
    getToolType (execCmd "cat secrets>/dev/null") = .dangerous_command ∧
    getToolType (execCmd "ls -la") = .command_execute ∧
    getToolType (execCmd "echo hello") = .command_execute ∧
    getToolType (execCmd "npm install") = .command_execute := by
  refine ⟨?_, ?_, ?_, ?_, ?_, ?_, ?_, ?_, ?_, ?_, ?_⟩
  · intro tc hk
    simp [getToolType, jsStrOr, hk]
  all_goals decide

/-- Witness for C4: the classification equation applied at `ls -la`. -/
theorem C4_dangerous_classification_witness :
    (execCmd "ls -la").kind = some "execute" ∧
    getToolType (execCmd "ls -la") =
      (if matchesDangerousPattern (rawInputOrEmpty (execCmd "ls -la")).stringify
        then ToolType.dangerous_command else ToolType.command_execute) :=
  ⟨rfl, C4_dangerous_classification.1 (execCmd "ls -la") rfl⟩

/-! ## Gate/override lemmas -/

theorem setAdd_contains (l : List ToolType) (t : ToolType) : (setAdd l t).contains t := by
  simp only [setAdd]
  split_ifs with h
  · exact h
  · simp

theorem isAlwaysAllowed_addAllowed_self (h : PermissionHandler) (sid : String) (t : ToolType) :
    (h.addAllowed sid t).isAlwaysAllowed sid t = true := by
  simp only [PermissionHandler.isAlwaysAllowed, PermissionHandler.allowedSet,
    PermissionHandler.addAllowed, mapGet_mapSet_self]
  exact setAdd_contains _ t

theorem isAlwaysAllowed_addAllowed_ne (h : PermissionHandler) (sid sid' : String)
    (t t' : ToolType) (hne : sid' ≠ sid) :
    (h.addAllowed sid t).isAlwaysAllowed sid' t' = h.isAlwaysAllowed sid' t' := by
  simp only [PermissionHandler.isAlwaysAllowed, PermissionHandler.allowedSet,
    PermissionHandler.addAllowed]
  rw [mapGet_mapSet_ne _ _ _ _ hne]

theorem needsPermission_of_alwaysAllowed (h : PermissionHandler) (sid mode : String)
    (tc : ToolCall) (ha : h.isAlwaysAllowed sid (getToolType tc) = true) :
    needsPermission h sid mode tc = false := by
  simp only [needsPermission]
  split_ifs <;> simp_all

theorem needsPermission_congr (h h' : PermissionHandler) (sid mode : String) (tc : ToolCall)
    (he : h.isAlwaysAllowed sid (getToolType tc) = h'.isAlwaysAllowed sid (getToolType tc)) :
    needsPermission h sid mode tc = needsPermission h' sid mode tc := by
  simp only [needsPermission]
  rw [he]

/-! ## Claim C7 -/

/-- C7: An `allow_always` permission response adds the classified risk
kind to that session's always-allow set before the outcome is returned;
from then on `needsPermission` is `false` for every tool call of that
(session, risk kind) pair in every mode, while every other session's
gate results are unchanged. -/
theorem C7_allow_always_override (h : PermissionHandler) (sid : String) (tc : ToolCall)
    (mode : String) (resp : PermOutcome)
    (hmode : mode ≠ "plan") (hopt : resp.optionId = some "allow_always") :
    (requestPermission h sid tc mode (Except.ok resp)).1 = resp ∧
    (requestPermission h sid tc mode (Except.ok resp)).2.isAlwaysAllowed sid
      (getToolType tc) = true ∧
    (∀ mode' : String, ∀ tc' : ToolCall, getToolType tc' = getToolType tc →
      needsPermission (requestPermission h sid tc mode (Except.ok resp)).2 sid mode' tc' =
        false) ∧
    (∀ sid' : String, sid' ≠ sid → ∀ mode' : String, ∀ tc' : ToolCall,
      needsPermission (requestPermission h sid tc mode (Except.ok resp)).2 sid' mode' tc' =
        needsPermission h sid' mode' tc') := by
  have hr : requestPermission h sid tc mode (Except.ok resp) =
      (resp, h.addAllowed sid (getToolType tc)) := by
    simp [requestPermission, hmode, hopt]
  refine ⟨by rw [hr], by rw [hr]; exact isAlwaysAllowed_addAllowed_self h sid _, ?_, ?_⟩
  · intro mode' tc' htype
    rw [hr]
    apply needsPermission_of_alwaysAllowed
    rw [htype]
    exact isAlwaysAllowed_addAllowed_self h sid _
  · intro sid' hne mode' tc'
    rw [hr]
    apply needsPermission_congr
    exact isAlwaysAllowed_addAllowed_ne h sid sid' _ _ hne

/-- A concrete edit-kind tool call. -/
def tcEdit : ToolCall := { toolCallId := "tc-edit", kind := some "edit", title := some "Write file" }

/-- The `allow_always` response outcome a client returns. -/
def respAllowAlways : PermOutcome := { outcome := "selected", optionId := some "allow_always" }

/-- Witness for C7 at a concrete session, tool call and response. -/
theorem C7_allow_always_override_witness :
    ("default" : String) ≠ "plan" ∧ respAllowAlways.optionId = some "allow_always" ∧
    (requestPermission {} "s1" tcEdit "default" (Except.ok respAllowAlways)).2.isAlwaysAllowed
      "s1" (getToolType tcEdit) = true ∧
    needsPermission (requestPermission {} "s1" tcEdit "default"
      (Except.ok respAllowAlways)).2 "s2" "default" tcEdit =
      needsPermission {} "s2" "default" tcEdit := by
  have h := C7_allow_always_override {} "s1" tcEdit "default" respAllowAlways
    (by decide) rfl
  exact ⟨by decide, rfl, h.2.1, h.2.2.2 "s2" (by decide) "default" tcEdit⟩

/-! ## Claim C5 -/

/-- C5: A transport failure while awaiting approval yields a `cancelled`
outcome instead of propagating the error (state untouched), and the
interceptor then treats it as a rejection: the id joins the blocked set,
a forced-failed `tool_call_update` with `{rejected: true, reason: "User
rejected the operation"}` is relayed after the pending copy, and the
original tool call is not forwarded. -/
theorem C5_transport_failure_fails_closed (ac : AgentComponents) (sid mode : String)
    (tc : ToolCall) (errmsg : String)
    (hperm : needsPermission ac.permissionHandler sid mode tc = true)
    (hmode : mode ≠ "plan") :
    requestPermission ac.permissionHandler sid tc mode (Except.error errmsg) =
      ({ outcome := "cancelled", optionId := none }, ac.permissionHandler) ∧
    (handleToolCall ac sid mode tc (Except.error errmsg)).1.forward = false ∧
    (handleToolCall ac sid mode tc (Except.error errmsg)).1.blocked = true ∧
    (handleToolCall ac sid mode tc (Except.error errmsg)).1.rejected = true ∧
    mapGet (handleToolCall ac sid mode tc
      (Except.error errmsg)).2.1.interceptor.blockedToolCalls tc.toolCallId = some tc ∧
    (handleToolCall ac sid mode tc (Except.error errmsg)).2.2 =
      [ .sessionUpdate sid (.toolCallForced tc "pending"),
        .permissionRequest sid tc,
        .sessionUpdate sid (.toolCallUpdateForced tc.toolCallId "failed"
          (.rejectedOut "User rejected the operation")) ] := by
  have hreq : requestPermission ac.permissionHandler sid tc mode (Except.error errmsg) =
      ({ outcome := "cancelled", optionId := none }, ac.permissionHandler) := by
    simp [requestPermission, hmode]
  have hcall : handleToolCall ac sid mode tc (Except.error errmsg) =
      ({ forward := false, blocked := true, rejected := true },
       { ac with interceptor := { ac.interceptor with
           blockedToolCalls := mapSet ac.interceptor.blockedToolCalls tc.toolCallId tc } },
       [ .sessionUpdate sid (.toolCallForced tc "pending"),
         .permissionRequest sid tc,
         .sessionUpdate sid (.toolCallUpdateForced tc.toolCallId "failed"
           (.rejectedOut "User rejected the operation")) ]) := by
    simp [handleToolCall, hperm, hmode, hreq]
  refine ⟨hreq, ?_, ?_, ?_, ?_, ?_⟩ <;> rw [hcall]
  exact mapGet_mapSet_self _ _ _

/-- Witness for C5: a default-mode edit tool call whose approval request
throws. -/
theorem C5_transport_failure_fails_closed_witness :
    needsPermission ({} : AgentComponents).permissionHandler "s1" "default" tcEdit = true ∧
    ("default" : String) ≠ "plan" ∧
    (handleToolCall {} "s1" "default" tcEdit (Except.error "boom")).1.forward = false := by
  have h := C5_transport_failure_fails_closed {} "s1" "default" tcEdit "boom"
    (by decide) (by decide)
  exact ⟨by decide, by decide, h.2.1⟩

/-! ## Claim C2 -/

theorem getPlan_addEntry (pc : PlanCollector) (sid : String) (tc : ToolCall) :
    (pc.addEntry sid tc).1.getPlan sid = pc.getPlan sid ++ [mkPlanEntry tc] := by
  simp [PlanCollector.addEntry, PlanCollector.getPlan, mapGet_mapSet_self]

/-- C2: A tool call arriving while the session is in `plan` mode and the
gate requires approval is not forwarded; instead exactly three session
updates go out, in order: the tool call forced to `pending`, a `plan`
snapshot holding the full plan including the newly appended entry, and a
forced-failed `tool_call_update` with `{blocked: true, reason: "Plan mode
- execution blocked"}`; the id joins the blocked set and no permission
request is sent. -/
theorem C2_plan_mode_three_updates (ac : AgentComponents) (sid : String) (tc : ToolCall)
    (env : PermEnv)
    (hmode : ac.modeManager.getMode sid = "plan")
    (hperm : needsPermission ac.permissionHandler sid "plan" tc = true) :
    (processSessionUpdate ac sid (.toolCall tc) env).1.forward = false ∧
    (processSessionUpdate ac sid (.toolCall tc) env).1.blocked = true ∧
    (processSessionUpdate ac sid (.toolCall tc) env).2.2 =
      [ .sessionUpdate sid (.toolCallForced tc "pending"),
        .sessionUpdate sid (.planSnapshot (ac.planCollector.getPlan sid ++ [mkPlanEntry tc])),
        .sessionUpdate sid (.toolCallUpdateForced tc.toolCallId "failed"
          (.blockedOut "Plan mode - execution blocked")) ] ∧
    (processSessionUpdate ac sid (.toolCall tc) env).2.1.planCollector.getPlan sid =
      ac.planCollector.getPlan sid ++ [mkPlanEntry tc] ∧
    mapGet (processSessionUpdate ac sid
      (.toolCall tc) env).2.1.interceptor.blockedToolCalls tc.toolCallId = some tc ∧
    (∀ m ∈ (processSessionUpdate ac sid (.toolCall tc) env).2.2,
      ∀ sid' : String, ∀ tc' : ToolCall, m ≠ OutMsg.permissionRequest sid' tc') := by
  have hrun : processSessionUpdate ac sid (.toolCall tc) env = handlePlanMode ac sid tc := by
    simp [processSessionUpdate, hmode, handleToolCall, hperm]
  rw [hrun]
  refine ⟨?_, ?_, ?_, ?_, ?_, ?_⟩
  · simp [handlePlanMode]
  · simp [handlePlanMode]
  · simp [handlePlanMode, getPlan_addEntry]
  · simp [handlePlanMode, getPlan_addEntry]
  · simp [handlePlanMode, mapGet_mapSet_self]
  · intro m hm sid' tc'
    simp only [handlePlanMode, List.mem_cons, List.not_mem_nil, or_false] at hm
    rcases hm with h | h | h <;> subst h <;> simp

/-- Witness for C2: a plan-mode session receiving an execute tool call. -/
theorem C2_plan_mode_three_updates_witness :
    (AgentComponents.mk {} ⟨[("s1", "plan")]⟩ {} {}).modeManager.getMode "s1" = "plan" ∧
    needsPermission {} "s1" "plan" (execCmd "ls -la") = true ∧
    (processSessionUpdate (AgentComponents.mk {} ⟨[("s1", "plan")]⟩ {} {}) "s1"
      (.toolCall (execCmd "ls -la")) (Except.error "unused")).1.forward = false := by
  have h := C2_plan_mode_three_updates (AgentComponents.mk {} ⟨[("s1", "plan")]⟩ {} {})
    "s1" (execCmd "ls -la") (Except.error "unused") (by decide) (by decide)
  exact ⟨by decide, by decide, h.1⟩

/-! ## Claim C3 -/

/-- Fold `handleToolCallUpdate` over a list of incoming `tool_call_update`
notifications, collecting each notification's routing result. -/
def processToolCallUpdates (ac : AgentComponents) (sid : String) :
    List ToolCallUpdateMsg → AgentComponents × List (ToolCallUpdateMsg × InterceptResult)
  | [] => (ac, [])
  | u :: us =>
      let step := handleToolCallUpdate ac sid u
      let rest := processToolCallUpdates step.2 sid us
      (rest.1, (u, step.1) :: rest.2)

theorem handleToolCallUpdate_interceptor_eq (ac : AgentComponents) (sid : String)
    (u : ToolCallUpdateMsg) : (handleToolCallUpdate ac sid u).2.interceptor = ac.interceptor := by
  simp only [handleToolCallUpdate]
  split_ifs <;> rfl

theorem handleToolCallUpdate_blocked (ac : AgentComponents) (sid : String)
    (u : ToolCallUpdateMsg) (hb : mapHas ac.interceptor.blockedToolCalls u.toolCallId = true) :
    handleToolCallUpdate ac sid u = ({ forward := false }, ac) := by
  simp only [mapHas] at hb
  simp [handleToolCallUpdate, Option.isSome_iff_exists] at hb ⊢
  rcases hb with ⟨tc, htc⟩
  simp [htc]

/-- C3: Once an invocation id is in the blocked set, every subsequently
processed `tool_call_update` for that id yields `forward = false` (it is
never relayed) for the whole run; an update whose id is not blocked is
relayed unchanged, after propagating a terminal `completed`/`failed`
status to the matching plan entry. -/
theorem C3_blocked_updates_suppressed (ac : AgentComponents) (sid : String) :
    (∀ id : String, mapHas ac.interceptor.blockedToolCalls id = true →
      ∀ us : List ToolCallUpdateMsg,
        ∀ pr ∈ (processToolCallUpdates ac sid us).2,
          pr.1.toolCallId = id → pr.2.forward = false) ∧
    (∀ u : ToolCallUpdateMsg, mapHas ac.interceptor.blockedToolCalls u.toolCallId = false →
      (handleToolCallUpdate ac sid u).1.forward = true ∧
      (handleToolCallUpdate ac sid u).1.update = some (.toolCallUpdate u) ∧
      (handleToolCallUpdate ac sid u).2.planCollector =
        (if u.status = "completed" ∨ u.status = "failed" then
          ac.planCollector.updateEntryByToolCallId sid u.toolCallId u.status
        else ac.planCollector)) := by
  constructor
  · intro id hid us
    induction us generalizing ac with
    | nil => intro pr hpr; simp [processToolCallUpdates] at hpr
    | cons u us ih =>
        intro pr hpr
        simp only [processToolCallUpdates, List.mem_cons] at hpr
        rcases hpr with h | h
        · subst h
          intro heq
          have hbu : mapHas ac.interceptor.blockedToolCalls u.toolCallId = true := by
            rw [heq]; exact hid
          rw [handleToolCallUpdate_blocked ac sid u hbu]
        · intro heq
          exact ih (handleToolCallUpdate ac sid u).2
            (by rw [handleToolCallUpdate_interceptor_eq]; exact hid) pr h heq
  · intro u hu
    simp only [mapHas] at hu
    have hnone : mapGet ac.interceptor.blockedToolCalls u.toolCallId = none := by
      cases hc : mapGet ac.interceptor.blockedToolCalls u.toolCallId with
      | none => rfl
      | some v => rw [hc] at hu; simp at hu
    simp only [handleToolCallUpdate, hnone, Option.isSome_none, Bool.false_eq_true, if_false]
    refine ⟨by trivial, by trivial, ?_⟩
    by_cases hc : u.status = "completed" <;> by_cases hf : u.status = "failed" <;>
      simp [hc, hf]

/-- Witness for C3: with id `tc1` blocked, the update run `[tc1 completed]`
is suppressed; a non-blocked id is relayed. -/
theorem C3_blocked_updates_suppressed_witness :
    mapHas (AgentComponents.mk {} {} {}
      ⟨[("tc1", tcEdit)], []⟩).interceptor.blockedToolCalls "tc1" = true ∧
    (∀ pr ∈ (processToolCallUpdates (AgentComponents.mk {} {} {} ⟨[("tc1", tcEdit)], []⟩)
      "s1" [⟨"tc1", "completed"⟩]).2, pr.1.toolCallId = "tc1" → pr.2.forward = false) := by
  have h := (C3_blocked_updates_suppressed
    (AgentComponents.mk {} {} {} ⟨[("tc1", tcEdit)], []⟩) "s1").1 "tc1" (by decide)
    [⟨"tc1", "completed"⟩]
  exact ⟨by decide, h⟩

/-! ## Claim C6 -/

/-- Bridge well-formedness: pending ids are pairwise distinct and below
the counter (so a fresh id is never an outstanding one). -/
def BridgeInv (b : KodaAcpBridge) : Prop :=
  ((b.pendingRequests.map Prod.fst).Nodup) ∧
  (∀ p ∈ b.pendingRequests, p.1 < b.requestIdCounter)

theorem bridgeInv_init : BridgeInv KodaAcpBridge.init := by
  constructor <;> simp [KodaAcpBridge.init, BridgeInv]

theorem sendRequest_pending (b : KodaAcpBridge) (method : String) (params : Option JsValue)
    (w : Bool) (hinv : BridgeInv b) :
    (b.sendRequest method params w).1.pendingRequests =
      b.pendingRequests ++ [(b.requestIdCounter, method)] := by
  have hfresh : mapGet b.pendingRequests b.requestIdCounter = none := by
    apply mapGet_eq_none_of_forall
    intro p hp hcontra
    exact absurd (hcontra ▸ hinv.2 p hp) (lt_irrefl _)
  simp [KodaAcpBridge.sendRequest, mapSet_of_absent _ _ _ hfresh]

theorem bridgeInv_sendRequest (b : KodaAcpBridge) (method : String) (params : Option JsValue)
    (w : Bool) (hinv : BridgeInv b) : BridgeInv (b.sendRequest method params w).1 := by
  rw [BridgeInv, sendRequest_pending b method params w hinv]
  constructor
  · rw [List.map_append, List.nodup_append]
    refine ⟨hinv.1, by simp, ?_⟩
    intro x hx
    simp only [List.mem_map] at hx
    rcases hx with ⟨p, hp, hpx⟩
    have := hinv.2 p hp
    simp only [List.map_cons, List.map_nil, List.mem_singleton]
    intro hcontra
    rw [hcontra] at hpx
    exact absurd (hpx ▸ this) (lt_irrefl _)
  · intro p hp
    simp only [KodaAcpBridge.sendRequest]
    rcases List.mem_append.mp hp with h | h
    · exact Nat.lt_succ_of_lt (hinv.2 p h)
    · simp only [List.mem_singleton] at h
      rw [h]
      exact Nat.lt_succ_self _

theorem bridgeInv_handleMessage (b : KodaAcpBridge) (msg : Frame) (hinv : BridgeInv b) :
    BridgeInv (b.handleMessage msg).1 := by
  simp only [KodaAcpBridge.handleMessage]
  rcases msg.id with _ | i
  · exact hinv
  · simp only
    split_ifs with hresp
    · cases hget : mapGet b.pendingRequests i with
      | none => simpa using hinv
      | some entry =>
          rcases herr : msg.error with _ | e <;>
          · simp only [hget, herr]
            refine ⟨?_, ?_⟩
            · exact (keys_mapDelete_sublist b.pendingRequests i).nodup hinv.1
            · intro p hp
              exact hinv.2 p (mem_mapDelete _ _ _ hp)
    · exact hinv

/-- C6: On one peer connection, outgoing ids start at 1 (the initial
counter) and increase by 1 per `sendRequest`, a fresh id is never one
still outstanding; a frame carrying an id plus a result or error resolves
(or rejects with the error's message) exactly the pending entry with that
id, removing it and leaving every other entry in place (so out-of-order
responses reach the correct callers); a response id matching nothing
pending is discarded without reaching the inbound dispatcher. -/
theorem C6_request_response_correlation :
    (KodaAcpBridge.init.requestIdCounter = 1 ∧ KodaAcpBridge.init.pendingRequests = []) ∧
    (∀ (b : KodaAcpBridge) (method : String) (params : Option JsValue) (w : Bool),
      (b.sendRequest method params w).2.1 = b.requestIdCounter ∧
      (b.sendRequest method params w).1.requestIdCounter = b.requestIdCounter + 1) ∧
    (∀ (b : KodaAcpBridge) (method : String) (params : Option JsValue) (w : Bool),
      BridgeInv b →
        mapGet b.pendingRequests (b.sendRequest method params w).2.1 = none ∧
        mapGet (b.sendRequest method params w).1.pendingRequests
          (b.sendRequest method params w).2.1 = some method ∧
        BridgeInv (b.sendRequest method params w).1) ∧
    (∀ (b : KodaAcpBridge) (msg : Frame), BridgeInv b → BridgeInv (b.handleMessage msg).1) ∧
    (∀ (b : KodaAcpBridge) (i : Nat) (entry : String) (msg : Frame),
      BridgeInv b → msg.id = some i → msg.result.isSome ∨ msg.error.isSome →
      mapGet b.pendingRequests i = some entry →
        mapGet (b.handleMessage msg).1.pendingRequests i = none ∧
        (∀ j : Nat, j ≠ i →
          mapGet (b.handleMessage msg).1.pendingRequests j = mapGet b.pendingRequests j) ∧
        ((∃ e, msg.error = some e ∧
            (b.handleMessage msg).2 = .rejected i entry (errMessageOf e)) ∨
          (msg.error = none ∧ (b.handleMessage msg).2 = .resolved i entry msg.result))) ∧
    (∀ (b : KodaAcpBridge) (i : Nat) (msg : Frame),
      msg.id = some i → msg.result.isSome ∨ msg.error.isSome →
      mapGet b.pendingRequests i = none →
        (b.handleMessage msg).1 = b ∧ (b.handleMessage msg).2 = .discarded) := by
  refine ⟨⟨rfl, rfl⟩, ?_, ?_, bridgeInv_handleMessage, ?_, ?_⟩
  · intro b method params w
    exact ⟨rfl, rfl⟩
  · intro b method params w hinv
    refine ⟨?_, ?_, bridgeInv_sendRequest b method params w hinv⟩
    · apply mapGet_eq_none_of_forall
      intro p hp hcontra
      exact absurd (hcontra ▸ hinv.2 p hp) (lt_irrefl _)
    · simp [KodaAcpBridge.sendRequest, mapGet_mapSet_self]
  · intro b i entry msg hinv hid hresp hget
    have hrespb : (msg.result.isSome || msg.error.isSome) = true := by
      rcases hresp with h | h <;> simp [h]
    refine ⟨?_, ?_, ?_⟩
    · simp only [KodaAcpBridge.handleMessage, hid, hrespb, if_true, hget]
      rcases herr : msg.error with _ | e <;> simp only [herr] <;>
        exact mapGet_mapDelete_self _ _ hinv.1
    · intro j hj
      simp only [KodaAcpBridge.handleMessage, hid, hrespb, if_true, hget]
      rcases herr : msg.error with _ | e <;> simp only [herr] <;>
        exact mapGet_mapDelete_ne _ _ _ hj
    · simp only [KodaAcpBridge.handleMessage, hid, hrespb, if_true, hget]
      rcases herr : msg.error with _ | e
      · exact Or.inr ⟨rfl, rfl⟩
      · exact Or.inl ⟨e, rfl, rfl⟩
  · intro b i msg hid hresp hget
    have hrespb : (msg.result.isSome || msg.error.isSome) = true := by
      rcases hresp with h | h <;> simp [h]
    simp [KodaAcpBridge.handleMessage, hid, hrespb, hget]

/-- A bridge with one outstanding request (id 1, `initialize`), as after
the first `sendRequest` on a fresh connection. -/
def bridgeOne : KodaAcpBridge := { pendingRequests := [(1, "initialize")], requestIdCounter := 2 }

/-- Witness for C6: the response frame `{id: 1, result: null}` resolves the
single pending `initialize` request of `bridgeOne` and empties the map. -/
theorem C6_request_response_correlation_witness :
    BridgeInv bridgeOne ∧
    (Frame.mk (some 1) none none (some .null) none).id = some 1 ∧
    mapGet bridgeOne.pendingRequests 1 = some "initialize" ∧
    mapGet (bridgeOne.handleMessage
      (Frame.mk (some 1) none none (some .null) none)).1.pendingRequests 1 = none := by
  have h := C6_request_response_correlation.2.2.2.2.1 bridgeOne 1 "initialize"
    (Frame.mk (some 1) none none (some .null) none)
    (by constructor <;> simp [bridgeOne]) rfl (Or.inl rfl) (by decide)
  exact ⟨by constructor <;> simp [bridgeOne], rfl, by decide, h.1⟩

/-! ## Claim C10 -/

/-- C10: `sendRequest` allocates a fresh id and registers the pending
entry whether or not the write succeeds; with an unwritable stdin the
frame is silently dropped (nothing is written) while the entry stays
registered, and `sendRequest` returns through the same path with no
rejection — under this model no resolve/reject event for the id can
originate from the dropped write. -/
theorem C10_write_failure_keeps_pending (b : KodaAcpBridge) (method : String)
    (params : Option JsValue) :
    (b.sendRequest method params false).2.2 = [] ∧
    (b.sendRequest method params true).2.2 =
      [{ id := some b.requestIdCounter, method := some method, params := params }] ∧
    (b.sendRequest method params false).1 = (b.sendRequest method params true).1 ∧
    mapGet (b.sendRequest method params false).1.pendingRequests
      (b.sendRequest method params false).2.1 = some method := by
  refine ⟨rfl, rfl, rfl, ?_⟩
  simp [KodaAcpBridge.sendRequest, mapGet_mapSet_self]

/-! ## Claim C8 -/

/-- A concrete tool call tracked by the interceptor. -/
def exToolCall : ToolCall := { toolCallId := "tc1", kind := some "edit" }

/-- An agent with one non-restarting session `s1` and one tracked
invocation in each interceptor map. -/
def exAgent : KodaAgent :=
  { sessions := [("s1", false)]
    interceptor :=
      { blockedToolCalls := [("tc1", exToolCall)]
        pendingToolCalls := [("tc1", exToolCall)] } }

/-- Counterexample to C8: after a successful set-mode operation and after
the close handler runs on `exAgent`, the interceptor's tracking maps are
still non-empty — neither operation clears them. -/
theorem C8_counterexample_tracking_survives :
    ((exAgent.setSessionMode "s1" "default").toOption.map
      (fun r => r.1.interceptor.blockedToolCalls.isEmpty)) = some false ∧
    ((exAgent.setSessionMode "s1" "default").toOption.map
      (fun r => r.1.interceptor.pendingToolCalls.isEmpty)) = some false ∧
    (exAgent.handleKodaClose "s1").interceptor.blockedToolCalls.isEmpty = false ∧
    (exAgent.handleKodaClose "s1").interceptor.pendingToolCalls.isEmpty = false := by
  refine ⟨rfl, rfl, rfl, rfl⟩

/-- C8 (amended): tracking records are never deleted individually and the
interceptor's `clearSession` empties both maps in bulk, but neither a
set-mode operation nor the close handler invokes it — both leave the
interceptor state exactly unchanged. -/
theorem C8_amended_interceptor_untouched (ag : KodaAgent) (sid modeId : String) :
    (∀ (ag' : KodaAgent) (msgs : List OutMsg),
      ag.setSessionMode sid modeId = .ok (ag', msgs) → ag'.interceptor = ag.interceptor) ∧
    (ag.handleKodaClose sid).interceptor = ag.interceptor ∧
    (∀ (it : ToolCallInterceptor) (s : String),
      (it.clearSession s).blockedToolCalls = [] ∧ (it.clearSession s).pendingToolCalls = []) := by
  refine ⟨?_, ?_, fun it s => ⟨rfl, rfl⟩⟩
  · intro ag' msgs h
    simp only [KodaAgent.setSessionMode] at h
    split_ifs at h
    all_goals rcases hm : ag.modeManager.setMode sid modeId with e | mm' <;> rw [hm] at h
    all_goals try exact (Except.noConfusion h)
    all_goals simp only [Except.ok.injEq, Prod.mk.injEq] at h
    all_goals rw [← h.1]
  · simp only [KodaAgent.handleKodaClose]
    rcases hg : mapGet ag.sessions sid with _ | r
    · rfl
    · cases r <;> simp

/-- The agent state `setSessionMode` produces from `exAgent`. -/
def exAgentAfter : KodaAgent :=
  { sessions := [("s1", false)]
    modeManager := ⟨[("s1", "default")]⟩
    interceptor :=
      { blockedToolCalls := [("tc1", exToolCall)]
        pendingToolCalls := [("tc1", exToolCall)] } }

/-- Witness for the amended C8: the concrete set-mode and close runs on
`exAgent` leave the interceptor untouched. -/
theorem C8_amended_interceptor_untouched_witness :
    exAgent.setSessionMode "s1" "default" =
      .ok (exAgentAfter, [.sessionUpdate "s1" (.currentModeUpdate "default")]) ∧
    exAgentAfter.interceptor = exAgent.interceptor ∧
    (exAgent.handleKodaClose "s1").interceptor = exAgent.interceptor :=
  ⟨rfl,
   (C8_amended_interceptor_untouched exAgent "s1" "default").1 exAgentAfter
     [.sessionUpdate "s1" (.currentModeUpdate "default")] rfl,
   (C8_amended_interceptor_untouched exAgent "s1" "default").2.1⟩

/-! ## Claim C9: execution-plan invariants -/

/-- The plan is live (approved and not yet terminal). -/
def planActive (p : ExecutionPlan) : Prop :=
  p.status = .paused ∨ p.status = .executing

/-- Step invariants of an execution plan:
a pending-approval plan sits at step 0 with every step pending;
while active, the current step has never been completed or skipped;
every step strictly after the current index is still pending. -/
def PlanInv (p : ExecutionPlan) : Prop :=
  (p.status = .pending_approval → p.currentStepIndex = 0 ∧ ∀ s ∈ p.steps, s.status = .pending) ∧
  (planActive p → ∀ s, p.steps[p.currentStepIndex]? = some s →
    s.status ≠ .completed ∧ s.status ≠ .skipped) ∧
  (∀ j s, p.currentStepIndex < j → p.steps[j]? = some s → s.status = .pending)

/-- The handler's plan, when present, satisfies `PlanInv`. -/
def HandlerInv (h : ProfessionalModeHandler) : Prop :=
  ∀ p, h.currentPlan = some p → PlanInv p

theorem modifyAt_length (l : List PlanStep) (i : Nat) (f : PlanStep → PlanStep) :
    (modifyAt l i f).length = l.length := by
  simp only [modifyAt]
  cases hc : l[i]? with
  | none => rfl
  | some s => exact List.length_set l i _

theorem modifyAt_getElem?_self (l : List PlanStep) (i : Nat) (f : PlanStep → PlanStep)
    (s : PlanStep) (h : l[i]? = some s) : (modifyAt l i f)[i]? = some (f s) := by
  have hlt : i < l.length := (List.getElem?_eq_some_iff.mp h).1
  simp only [modifyAt, h]
  rw [List.getElem?_set_self hlt]

theorem modifyAt_getElem?_ne (l : List PlanStep) (i : Nat) (f : PlanStep → PlanStep)
    (j : Nat) (h : j ≠ i) : (modifyAt l i f)[j]? = l[j]? := by
  simp only [modifyAt]
  cases hc : l[i]? with
  | none => rfl
  | some s => exact List.getElem?_set_ne (by omega)

theorem modifyAt_forall {P : PlanStep → Prop} (l : List PlanStep) (i : Nat)
    (f : PlanStep → PlanStep) (hl : ∀ s ∈ l, P s) (hf : ∀ s, P s → P (f s)) :
    ∀ s' ∈ modifyAt l i f, P s' := by
  simp only [modifyAt]
  cases hc : l[i]? with
  | none => exact hl
  | some s =>
      intro s' hs'
      rcases List.mem_or_eq_of_mem_set hs' with h | h
      · exact hl s' h
      · subst h
        exact hf s (hl s (List.getElem?_mem hc))

theorem handlerInv_createPlan (h : ProfessionalModeHandler) (now : Nat) (task : String)
    (steps : List (String × String)) : HandlerInv (h.createPlan now task steps).1 := by
  intro q hq
  simp only [ProfessionalModeHandler.createPlan, Option.some.injEq] at hq
  subst hq
  have hall : ∀ s ∈ (steps.enum).map (fun si =>
      ({ id := ("plan_" ++ toString now) ++ "_step_" ++ toString si.1, title := si.2.1,
         description := si.2.2, status := .pending, result := Option.none } : PlanStep)),
      s.status = StepStatus.pending := by
    intro s hs
    simp only [List.mem_map] at hs
    rcases hs with ⟨si, _, hsi⟩
    rw [← hsi]
  refine ⟨fun _ => ⟨rfl, hall⟩, ?_, ?_⟩
  · intro hact
    rcases hact with hact | hact <;> exact (PlanStatus.noConfusion hact)
  · intro j s _ hs
    exact hall s (List.getElem?_mem hs)

theorem handlerInv_rejectPlan (h : ProfessionalModeHandler) (hinv : HandlerInv h) :
    HandlerInv h.rejectPlan.1 := by
  intro q hq
  rcases hp : h.currentPlan with _ | p
  · simp only [ProfessionalModeHandler.rejectPlan, hp] at hq
    exact Option.noConfusion hq
  · simp only [ProfessionalModeHandler.rejectPlan, hp, Option.some.injEq] at hq
    subst hq
    obtain ⟨_, _, inv3⟩ := hinv p hp
    refine ⟨fun hcontra => PlanStatus.noConfusion hcontra, ?_, inv3⟩
    intro hact
    rcases hact with hact | hact <;> exact (PlanStatus.noConfusion hact)

/-- A plan whose current step is rewritten by `f` (to a status that is
neither completed nor skipped) and whose status moves to a non-approval
status keeps the step invariants. -/
theorem planInv_set_current_and_status (p : ExecutionPlan) (step : PlanStep)
    (hcur : p.steps[p.currentStepIndex]? = some step)
    (inv3 : ∀ j s, p.currentStepIndex < j → p.steps[j]? = some s → s.status = .pending)
    (f : PlanStep → PlanStep) (newStatus : PlanStatus)
    (hns : newStatus ≠ PlanStatus.pending_approval)
    (hf1 : (f step).status ≠ StepStatus.completed)
    (hf2 : (f step).status ≠ StepStatus.skipped) :
    PlanInv { p with steps := modifyAt p.steps p.currentStepIndex f, status := newStatus } := by
  refine ⟨fun hc => absurd hc hns, ?_, ?_⟩
  · intro _ s hsome
    dsimp only at hsome
    rw [modifyAt_getElem?_self p.steps p.currentStepIndex f step hcur] at hsome
    obtain rfl := Option.some.inj hsome
    exact ⟨hf1, hf2⟩
  · intro j s hj hsome
    dsimp only at hj hsome
    rw [modifyAt_getElem?_ne p.steps p.currentStepIndex f j (by omega)] at hsome
    exact inv3 j s hj hsome

theorem handlerInv_failCurrentStep (h : ProfessionalModeHandler) (err : String)
    (hinv : HandlerInv h) : HandlerInv (h.failCurrentStep err).1 := by
  intro q hq
  rcases hp : h.currentPlan with _ | p
  · simp only [ProfessionalModeHandler.failCurrentStep, hp] at hq
    exact Option.noConfusion hq
  · rcases hs : h.getCurrentStep with _ | step
    · simp only [ProfessionalModeHandler.failCurrentStep, hp, hs] at hq
      obtain rfl := Option.some.inj hq
      exact hinv _ hp
    · simp only [ProfessionalModeHandler.failCurrentStep, hp, hs, Option.some.injEq] at hq
      subst hq
      have hcur : p.steps[p.currentStepIndex]? = some step := by
        simpa [ProfessionalModeHandler.getCurrentStep, hp] using hs
      exact planInv_set_current_and_status p step hcur (hinv p hp).2.2 _ .paused
        (by simp) (by simp) (by simp)

theorem handlerInv_approveCurrentStep (h : ProfessionalModeHandler) (hinv : HandlerInv h) :
    HandlerInv h.approveCurrentStep.1 := by
  intro q hq
  rcases hp : h.currentPlan with _ | p
  · simp only [ProfessionalModeHandler.approveCurrentStep, hp] at hq
    exact Option.noConfusion hq
  · rcases hs : h.getCurrentStep with _ | step
    · simp only [ProfessionalModeHandler.approveCurrentStep, hp, hs] at hq
      obtain rfl := Option.some.inj hq
      exact hinv _ hp
    · simp only [ProfessionalModeHandler.approveCurrentStep, hp, hs] at hq
      split_ifs at hq with hst
      · simp only [Option.some.injEq] at hq
        subst hq
        have hcur : p.steps[p.currentStepIndex]? = some step := by
          simpa [ProfessionalModeHandler.getCurrentStep, hp] using hs
        exact planInv_set_current_and_status p step hcur (hinv p hp).2.2 _ .executing
          (by simp) (by simp) (by simp)
      · simp only at hq
        rw [hp] at hq
        obtain rfl := Option.some.inj hq
        exact hinv _ hp

/-- Lemma: `moveToNextStep` restores the invariants from clause 3 alone: the
step it lands on becomes `awaiting_approval` and the tail stays pending. -/
theorem handlerInv_moveToNextStep (h : ProfessionalModeHandler) (now : Nat)
    (hpre : ∀ p, h.currentPlan = some p →
      ∀ j s, p.currentStepIndex < j → p.steps[j]? = some s → s.status = .pending) :
    HandlerInv (h.moveToNextStep now).1 := by
  intro q hq
  rcases hp : h.currentPlan with _ | p
  · simp only [ProfessionalModeHandler.moveToNextStep, hp] at hq
    exact Option.noConfusion hq
  · simp only [ProfessionalModeHandler.moveToNextStep, hp] at hq
    split_ifs at hq with hend
    · simp only [Option.some.injEq] at hq
      subst hq
      refine ⟨fun hc => PlanStatus.noConfusion hc, ?_, ?_⟩
      · intro hact
        rcases hact with hact | hact <;> exact (PlanStatus.noConfusion hact)
      · intro j s hj hsome
        dsimp only at hj hsome
        exact hpre p hp j s hj hsome
    · simp only [Option.some.injEq] at hq
      subst hq
      push_neg at hend
      have hstep : ∃ s0, p.steps[p.currentStepIndex + 1]? = some s0 := by
        rcases hg : p.steps[p.currentStepIndex + 1]? with _ | s0
        · rw [List.getElem?_eq_none_iff] at hg
          omega
        · exact ⟨s0, rfl⟩
      rcases hstep with ⟨s0, hs0⟩
      refine ⟨fun hc => PlanStatus.noConfusion hc, ?_, ?_⟩
      · intro _ s hsome
        dsimp only at hsome
        rw [modifyAt_getElem?_self p.steps (p.currentStepIndex + 1) _ s0 hs0] at hsome
        obtain rfl := Option.some.inj hsome
        exact ⟨fun hc => StepStatus.noConfusion hc, fun hc => StepStatus.noConfusion hc⟩
      · intro j s hj hsome
        dsimp only at hj hsome
        rw [modifyAt_getElem?_ne p.steps (p.currentStepIndex + 1) _ j (by omega)] at hsome
        exact hpre p hp j s (by omega) hsome

theorem handlerInv_skipCurrentStep (h : ProfessionalModeHandler) (now : Nat)
    (hinv : HandlerInv h) : HandlerInv (h.skipCurrentStep now).1 := by
  intro q hq
  rcases hp : h.currentPlan with _ | p
  · simp only [ProfessionalModeHandler.skipCurrentStep, hp] at hq
    exact Option.noConfusion hq
  · rcases hs : h.getCurrentStep with _ | step
    · simp only [ProfessionalModeHandler.skipCurrentStep, hp, hs] at hq
      obtain rfl := Option.some.inj hq
      exact hinv _ hp
    · refine handlerInv_moveToNextStep
        { h with currentPlan := some { p with
            steps := modifyAt p.steps p.currentStepIndex
              (fun s => { s with status := StepStatus.skipped }) } } now ?_ q ?_
      · intro p' hp'
        simp only [Option.some.injEq] at hp'
        subst hp'
        intro j s hj hsome
        dsimp only at hj hsome
        rw [modifyAt_getElem?_ne p.steps p.currentStepIndex _ j (by omega)] at hsome
        exact (hinv p hp).2.2 j s hj hsome
      · simpa only [ProfessionalModeHandler.skipCurrentStep, hp, hs] using hq

theorem handlerInv_completeCurrentStep (h : ProfessionalModeHandler) (now : Nat)
    (result : String) (hinv : HandlerInv h) : HandlerInv (h.completeCurrentStep now result).1 := by
  intro q hq
  rcases hp : h.currentPlan with _ | p
  · simp only [ProfessionalModeHandler.completeCurrentStep, hp] at hq
    exact Option.noConfusion hq
  · rcases hs : h.getCurrentStep with _ | step
    · simp only [ProfessionalModeHandler.completeCurrentStep, hp, hs] at hq
      obtain rfl := Option.some.inj hq
      exact hinv _ hp
    · by_cases hst : step.status = StepStatus.in_progress
      · refine handlerInv_moveToNextStep
          { h with currentPlan := some { p with
              steps := modifyAt p.steps p.currentStepIndex
                (fun s => { s with status := StepStatus.completed, result := some result }) } }
          now ?_ q ?_
        · intro p' hp'
          simp only [Option.some.injEq] at hp'
          subst hp'
          intro j s hj hsome
          dsimp only at hj hsome
          rw [modifyAt_getElem?_ne p.steps p.currentStepIndex _ j (by omega)] at hsome
          exact (hinv p hp).2.2 j s hj hsome
        · simpa only [ProfessionalModeHandler.completeCurrentStep, hp, hs, hst, if_true] using hq
      · simp only [ProfessionalModeHandler.completeCurrentStep, hp, hs, hst, if_false] at hq
        obtain rfl := Option.some.inj hq
        exact hinv _ hp

theorem handlerInv_approvePlan (h : ProfessionalModeHandler) (hinv : HandlerInv h) :
    HandlerInv h.approvePlan.1 := by
  intro q hq
  rcases hp : h.currentPlan with _ | p
  · simp only [ProfessionalModeHandler.approvePlan, hp] at hq
    exact Option.noConfusion hq
  · simp only [ProfessionalModeHandler.approvePlan, hp] at hq
    split_ifs at hq with hst hlen
    · simp only [Option.some.injEq] at hq
      subst hq
      obtain ⟨inv1, _, _⟩ := hinv p hp
      obtain ⟨hidx, hpend⟩ := inv1 hst
      refine ⟨fun hc => PlanStatus.noConfusion hc, ?_, ?_⟩
      · intro _ s hsome
        dsimp only at hsome
        rw [hidx] at hsome
        rcases hg : p.steps[0]? with _ | s0
        · rw [List.getElem?_eq_none_iff] at hg
          omega
        · rw [modifyAt_getElem?_self p.steps 0 _ s0 hg] at hsome
          obtain rfl := Option.some.inj hsome
          exact ⟨fun hc => StepStatus.noConfusion hc, fun hc => StepStatus.noConfusion hc⟩
      · intro j s hj hsome
        dsimp only at hj hsome
        rw [hidx] at hj
        rw [modifyAt_getElem?_ne p.steps 0 _ j (by omega)] at hsome
        exact hpend s (List.getElem?_mem hsome)
    · simp only [Option.some.injEq] at hq
      subst hq
      obtain ⟨inv1, _, _⟩ := hinv p hp
      obtain ⟨hidx, hpend⟩ := inv1 hst
      refine ⟨fun hc => PlanStatus.noConfusion hc, ?_, ?_⟩
      · intro _ s hsome
        dsimp only at hsome
        have hps : s.status = StepStatus.pending := hpend s (List.getElem?_mem hsome)
        rw [hps]
        exact ⟨fun hc => StepStatus.noConfusion hc, fun hc => StepStatus.noConfusion hc⟩
      · intro j s hj hsome
        dsimp only at hj hsome
        exact hpend s (List.getElem?_mem hsome)
    · simp only at hq
      rw [hp] at hq
      obtain rfl := Option.some.inj hq
      exact hinv _ hp

theorem handlerInv_modifyStep (h : ProfessionalModeHandler) (i : Nat) (t d : Option String)
    (hinv : HandlerInv h) : HandlerInv (h.modifyStep i t d).1 := by
  intro q hq
  rcases hp : h.currentPlan with _ | p
  · simp only [ProfessionalModeHandler.modifyStep, hp] at hq
    exact Option.noConfusion hq
  · simp only [ProfessionalModeHandler.modifyStep, hp] at hq
    split_ifs at hq with hge
    · simp only at hq
      rw [hp] at hq
      obtain rfl := Option.some.inj hq
      exact hinv _ hp
    · rcases hg : p.steps[i]? with _ | step <;> rw [hg] at hq
      · simp only at hq
        rw [hp] at hq
        obtain rfl := Option.some.inj hq
        exact hinv _ hp
      · dsimp only at hq
        split_ifs at hq with hbad
        · simp only at hq
          rw [hp] at hq
          obtain rfl := Option.some.inj hq
          exact hinv _ hp
        · simp only [Option.some.injEq] at hq
          subst hq
          obtain ⟨inv1, inv2, inv3⟩ := hinv p hp
          have hstat : ∀ s : PlanStep,
              ((fun s : PlanStep =>
                ({ s with
                    title := match t with
                      | some t' => if t' = "" then s.title else t'
                      | Option.none => s.title
                    description := match d with
                      | some d' => if d' = "" then s.description else d'
                      | Option.none => s.description } : PlanStep)) s).status = s.status := by
            intro s; rfl
          refine ⟨?_, ?_, ?_⟩
          · intro hpa
            obtain ⟨hidx, hpend⟩ := inv1 hpa
            refine ⟨hidx, ?_⟩
            apply modifyAt_forall p.steps i _ hpend
            intro s hs
            rw [hstat s]
            exact hs
          · intro hact s hsome
            dsimp only at hsome
            by_cases hci : p.currentStepIndex = i
            · rw [hci] at hsome
              rw [modifyAt_getElem?_self p.steps i _ step hg] at hsome
              obtain rfl := Option.some.inj hsome
              rw [hstat step]
              exact inv2 hact step (by rw [hci]; exact hg)
            · rw [modifyAt_getElem?_ne p.steps i _ _ hci] at hsome
              exact inv2 hact s hsome
          · intro j s hj hsome
            dsimp only at hj hsome
            by_cases hji : j = i
            · subst hji
              rw [modifyAt_getElem?_self p.steps j _ step hg] at hsome
              obtain rfl := Option.some.inj hsome
              rw [hstat step]
              exact inv3 j step hj hg
            · rw [modifyAt_getElem?_ne p.steps i _ _ hji] at hsome
              exact inv3 j s hj hsome

theorem handlerInv_removeStep (h : ProfessionalModeHandler) (i : Nat)
    (hinv : HandlerInv h) : HandlerInv (h.removeStep i).1 := by
  intro q hq
  rcases hp : h.currentPlan with _ | p
  · simp only [ProfessionalModeHandler.removeStep, hp] at hq
    exact Option.noConfusion hq
  · simp only [ProfessionalModeHandler.removeStep, hp] at hq
    split_ifs at hq with hge hic0
    · simp only at hq
      rw [hp] at hq
      obtain rfl := Option.some.inj hq
      exact hinv _ hp
    · rcases hg : p.steps[i]? with _ | step <;> rw [hg] at hq
      · simp only at hq
        rw [hp] at hq
        obtain rfl := Option.some.inj hq
        exact hinv _ hp
      · dsimp only at hq
        split_ifs at hq with hbad
        · simp only at hq
          rw [hp] at hq
          obtain rfl := Option.some.inj hq
          exact hinv _ hp
        · simp only [Option.some.injEq] at hq
          subst hq
          obtain ⟨inv1, inv2, inv3⟩ := hinv p hp
          refine ⟨?_, ?_, ?_⟩
          · intro hpa
            obtain ⟨hidx, _⟩ := inv1 hpa
            rw [hidx] at hic0
            exact absurd hic0 (by omega)
          · intro hact s hsome
            dsimp only at hsome
            rw [List.getElem?_eraseIdx] at hsome
            have hnc : ¬ (p.currentStepIndex - 1 < i) := by omega
            rw [if_neg hnc] at hsome
            have he : p.currentStepIndex - 1 + 1 = p.currentStepIndex := by omega
            rw [he] at hsome
            exact inv2 hact s hsome
          · intro j s hj hsome
            dsimp only at hj hsome
            rw [List.getElem?_eraseIdx] at hsome
            by_cases hji : j < i
            · exact absurd hji (by omega)
            · rw [if_neg hji] at hsome
              exact inv3 (j + 1) s (by omega) hsome
    · rcases hg : p.steps[i]? with _ | step <;> rw [hg] at hq
      · simp only at hq
        rw [hp] at hq
        obtain rfl := Option.some.inj hq
        exact hinv _ hp
      · dsimp only at hq
        split_ifs at hq with hbad
        · simp only at hq
          rw [hp] at hq
          obtain rfl := Option.some.inj hq
          exact hinv _ hp
        · simp only [Option.some.injEq] at hq
          subst hq
          obtain ⟨inv1, inv2, inv3⟩ := hinv p hp
          refine ⟨?_, ?_, ?_⟩
          · intro hpa
            obtain ⟨hidx, hpend⟩ := inv1 hpa
            refine ⟨hidx, ?_⟩
            intro s hs
            exact hpend s ((List.eraseIdx_sublist p.steps i).subset hs)
          · intro hact s hsome
            dsimp only at hsome
            rw [List.getElem?_eraseIdx] at hsome
            by_cases hie : i = p.currentStepIndex
            · rw [if_neg (by omega)] at hsome
              have hpending := inv3 (p.currentStepIndex + 1) s (by omega) hsome
              rw [hpending]
              exact ⟨fun hc => StepStatus.noConfusion hc, fun hc => StepStatus.noConfusion hc⟩
            · rw [if_pos (by omega)] at hsome
              exact inv2 hact s hsome
          · intro j s hj hsome
            dsimp only at hj hsome
            rw [List.getElem?_eraseIdx] at hsome
            by_cases hji : j < i
            · rw [if_pos hji] at hsome
              exact inv3 j s hj hsome
            · rw [if_neg hji] at hsome
              exact inv3 (j + 1) s (by omega) hsome

theorem moveToNextStep_terminal (h : ProfessionalModeHandler) (now : Nat) (p : ExecutionPlan)
    (hp : h.currentPlan = some p) (hend : p.currentStepIndex + 1 ≥ p.steps.length) :
    (h.moveToNextStep now).1.currentPlan =
      some { p with status := .completed, completedAt := some now } := by
  simp only [ProfessionalModeHandler.moveToNextStep, hp]
  rw [if_pos hend]

theorem completeCurrentStep_terminal (h : ProfessionalModeHandler) (now : Nat) (r : String)
    (p : ExecutionPlan) (s : PlanStep) (hp : h.currentPlan = some p)
    (hs : h.getCurrentStep = some s) (hst : s.status = .in_progress)
    (hend : p.currentStepIndex + 1 ≥ p.steps.length) :
    ∃ q, (h.completeCurrentStep now r).1.currentPlan = some q ∧
      q.status = .completed ∧ q.completedAt = some now := by
  have hrw : h.completeCurrentStep now r =
      ProfessionalModeHandler.moveToNextStep
        { h with currentPlan := some { p with
            steps := modifyAt p.steps p.currentStepIndex
              (fun st => { st with status := StepStatus.completed, result := some r }) } } now := by
    simp [ProfessionalModeHandler.completeCurrentStep, hp, hs, hst]
  rw [hrw]
  refine ⟨_, moveToNextStep_terminal _ now _ rfl ?_, rfl, rfl⟩
  dsimp only
  rw [modifyAt_length]
  exact hend

theorem skipCurrentStep_terminal (h : ProfessionalModeHandler) (now : Nat)
    (p : ExecutionPlan) (s : PlanStep) (hp : h.currentPlan = some p)
    (hs : h.getCurrentStep = some s) (hend : p.currentStepIndex + 1 ≥ p.steps.length) :
    ∃ q, (h.skipCurrentStep now).1.currentPlan = some q ∧
      q.status = .completed ∧ q.completedAt = some now := by
  have hrw : h.skipCurrentStep now =
      ProfessionalModeHandler.moveToNextStep
        { h with currentPlan := some { p with
            steps := modifyAt p.steps p.currentStepIndex
              (fun st => { st with status := StepStatus.skipped }) } } now := by
    simp [ProfessionalModeHandler.skipCurrentStep, hp, hs]
  rw [hrw]
  refine ⟨_, moveToNextStep_terminal _ now _ rfl ?_, rfl, rfl⟩
  dsimp only
  rw [modifyAt_length]
  exact hend

theorem rejectPlan_cancels (h : ProfessionalModeHandler) (p : ExecutionPlan)
    (hp : h.currentPlan = some p) :
    h.rejectPlan.1.currentPlan = some { p with status := PlanStatus.cancelled } := by
  simp [ProfessionalModeHandler.rejectPlan, hp]

/-- Reaching [A completed, B completed, C awaiting] at index 2 through the
normal approve/complete flow. -/
def c9Handler5 : ProfessionalModeHandler :=
  ((((((({} : ProfessionalModeHandler).createPlan 0 "task"
    [("A", ""), ("B", ""), ("C", "")]).1.approvePlan).1.approveCurrentStep).1.completeCurrentStep
      0 "").1.approveCurrentStep).1.completeCurrentStep 0 "").1

/-- The same state after one `addStep` inserting after position 0. -/
def c9Handler6 : ProfessionalModeHandler := (c9Handler5.addStep 0 0 "X" "").1

/-- Counterexample to C9: before the `addStep`, the plan is active
(paused) with the current step awaiting approval; `addStep 0` — an
in-range insertion — leaves the plan active but makes the current step a
`completed` one (step B is current again), so the handler operation
`addStep` does revisit an already completed step. -/
theorem C9_counterexample_addStep_revisits :
    (c9Handler5.currentPlan.map ExecutionPlan.status = some .paused) ∧
    ((c9Handler5.getCurrentStep).map PlanStep.status = some .awaiting_approval) ∧
    (c9Handler5.currentPlan.map ExecutionPlan.currentStepIndex = some 2) ∧
    (c9Handler6.currentPlan.map ExecutionPlan.status = some .paused) ∧
    (c9Handler6.currentPlan.map ExecutionPlan.currentStepIndex = some 2) ∧
    ((c9Handler6.getCurrentStep).map PlanStep.status = some .completed) := by
  refine ⟨rfl, rfl, rfl, rfl, rfl, rfl⟩

/-- C9 (amended): while a plan exists, the step at `currentStepIndex` is
the unique current step; the handler operations other than `addStep` —
approve/reject plan, approve/skip/complete/fail current step, modify step,
remove step — never make an already completed or skipped step current
(they preserve the step invariants `HandlerInv`, which `addStep` violates
per the counterexample); completing or skipping the final step makes the
plan status terminal `completed`, and rejecting the plan makes it
`cancelled`. -/
theorem C9_amended_strict_forward :
    (∀ (h : ProfessionalModeHandler) (p : ExecutionPlan), h.currentPlan = some p →
      h.getCurrentStep = p.steps[p.currentStepIndex]?) ∧
    (∀ (h : ProfessionalModeHandler) (now : Nat) (task : String)
      (steps : List (String × String)), HandlerInv (h.createPlan now task steps).1) ∧
    (∀ h : ProfessionalModeHandler, HandlerInv h → HandlerInv h.approvePlan.1) ∧
    (∀ h : ProfessionalModeHandler, HandlerInv h → HandlerInv h.rejectPlan.1) ∧
    (∀ h : ProfessionalModeHandler, HandlerInv h → HandlerInv h.approveCurrentStep.1) ∧
    (∀ (h : ProfessionalModeHandler) (now : Nat), HandlerInv h →
      HandlerInv (h.skipCurrentStep now).1) ∧
    (∀ (h : ProfessionalModeHandler) (now : Nat) (r : String), HandlerInv h →
      HandlerInv (h.completeCurrentStep now r).1) ∧
    (∀ (h : ProfessionalModeHandler) (e : String), HandlerInv h →
      HandlerInv (h.failCurrentStep e).1) ∧
    (∀ (h : ProfessionalModeHandler) (i : Nat) (t d : Option String), HandlerInv h →
      HandlerInv (h.modifyStep i t d).1) ∧
    (∀ (h : ProfessionalModeHandler) (i : Nat), HandlerInv h →
      HandlerInv (h.removeStep i).1) ∧
    (∀ (h : ProfessionalModeHandler) (now : Nat) (r : String) (p : ExecutionPlan) (s : PlanStep),
      h.currentPlan = some p → h.getCurrentStep = some s → s.status = .in_progress →
      p.currentStepIndex + 1 ≥ p.steps.length →
      ∃ q, (h.completeCurrentStep now r).1.currentPlan = some q ∧
        q.status = .completed ∧ q.completedAt = some now) ∧
    (∀ (h : ProfessionalModeHandler) (now : Nat) (p : ExecutionPlan) (s : PlanStep),
      h.currentPlan = some p → h.getCurrentStep = some s →
      p.currentStepIndex + 1 ≥ p.steps.length →
      ∃ q, (h.skipCurrentStep now).1.currentPlan = some q ∧
        q.status = .completed ∧ q.completedAt = some now) ∧
    (∀ (h : ProfessionalModeHandler) (p : ExecutionPlan), h.currentPlan = some p →
      h.rejectPlan.1.currentPlan = some { p with status := PlanStatus.cancelled }) := by
  refine ⟨?_, fun h now task steps => handlerInv_createPlan h now task steps,
    handlerInv_approvePlan, handlerInv_rejectPlan, handlerInv_approveCurrentStep,
    fun h now => handlerInv_skipCurrentStep h now,
    fun h now r => handlerInv_completeCurrentStep h now r,
    fun h e => handlerInv_failCurrentStep h e,
    fun h i t d => handlerInv_modifyStep h i t d,
    fun h i => handlerInv_removeStep h i,
    completeCurrentStep_terminal, skipCurrentStep_terminal, rejectPlan_cancels⟩
  intro h p hp
  simp [ProfessionalModeHandler.getCurrentStep, hp]

/-- Witness for the amended C9: the invariant holds for the empty handler
and is carried through a concrete create/approve sequence. -/
theorem C9_amended_strict_forward_witness :
    HandlerInv ({} : ProfessionalModeHandler) ∧
    HandlerInv (({} : ProfessionalModeHandler).createPlan 0 "task" [("A", "d")]).1 ∧
    HandlerInv (({} : ProfessionalModeHandler).createPlan 0 "task"
      [("A", "d")]).1.approvePlan.1 := by
  have hbase : HandlerInv ({} : ProfessionalModeHandler) := fun p hp => Option.noConfusion hp
  have h1 := C9_amended_strict_forward.2.1 ({} : ProfessionalModeHandler) 0 "task" [("A", "d")]
  exact ⟨hbase, h1, C9_amended_strict_forward.2.2.1 _ h1⟩

end KodaAgentSpec
